import Mathlib

/-!
# Verification of the ESP32 ⟷ Tauri serial communication core

A shallow embedding, in Lean 4, of the framing / dispatch / encryption-envelope
protocol implemented by this repository:

* `src/shared_crypto/src/lib.rs` — envelope codec (`CryptoSystem`), message
  structures (`Command`, `Response`, `EncryptedMessage`);
* `src/backend/src/lib.rs`       — device-side line loop and dispatch;
* `src/gui/src-tauri/src/main.rs` — host-side link manager, line accumulator,
  reconnect backoff, command senders.

Bytes are modelled as `Nat` values (with `< 256` side conditions where they
matter); fallible Rust code returns `Option` / `Outcome`; the `aes_gcm`
library cipher — external to the repository — is a parameter (`AeadCipher`)
of the functions that call it, with its contract stated as hypotheses where a
theorem needs it.  Everything else (base64, SHA-256, UTF-8, JSON) is modelled
concretely and executably.
-/

set_option maxRecDepth 8000

namespace ETC

/-! ## Base64 (the `base64` crate, `general_purpose::STANDARD` engine)

`shared_crypto` encodes ciphertext and nonce with `BASE64.encode` and decodes
with `BASE64.decode`, where `BASE64` is the standard-alphabet, padded engine.
Decoding is canonical: it requires correct `=` padding at the very end and
rejects non-zero trailing bits in the final partial group. -/

/-- The 64-character standard base64 alphabet. -/
def b64Alphabet : List Char :=
  "ABCDEFGHIJKLMNOPQRSTUVWXYZabcdefghijklmnopqrstuvwxyz0123456789+/".data

/-- Sextet value (0‥63) to alphabet character. -/
def enc64 (n : Nat) : Char := b64Alphabet.getD n 'A'

/-- Alphabet character back to its sextet value; `none` off-alphabet. -/
def dec64 (c : Char) : Option Nat := b64Alphabet.findIdx? (· = c)

/-- `BASE64.encode`: bytes to base64 characters, `=`-padded. -/
def b64encodeChars : List Nat → List Char
  | b0 :: b1 :: b2 :: rest =>
    enc64 (b0 / 4) :: enc64 (b0 % 4 * 16 + b1 / 16) ::
      enc64 (b1 % 16 * 4 + b2 / 64) :: enc64 (b2 % 64) :: b64encodeChars rest
  | [b0, b1] => [enc64 (b0 / 4), enc64 (b0 % 4 * 16 + b1 / 16), enc64 (b1 % 16 * 4), '=']
  | [b0] => [enc64 (b0 / 4), enc64 (b0 % 4 * 16), '=', '=']
  | [] => []

/-- `BASE64.decode`: base64 characters back to bytes.  Canonical padding is
required (length a multiple of four, `=` only at the very end) and the unused
low bits of the last symbol before the padding must be zero, as in the
crate's default (`decode_allow_trailing_bits = false`). -/
def b64decodeChars : List Char → Option (List Nat)
  | [] => some []
  | c1 :: c2 :: c3 :: c4 :: rest =>
    match dec64 c1, dec64 c2 with
    | some s1, some s2 =>
      if c4 = '=' then
        if rest ≠ [] then none
        else if c3 = '=' then
          if s2 % 16 = 0 then some [s1 * 4 + s2 / 16] else none
        else match dec64 c3 with
          | some s3 =>
            if s3 % 4 = 0 then some [s1 * 4 + s2 / 16, s2 % 16 * 16 + s3 / 4] else none
          | none => none
      else match dec64 c3, dec64 c4 with
        | some s3, some s4 =>
          (b64decodeChars rest).map
            (fun bs => (s1 * 4 + s2 / 16) :: (s2 % 16 * 16 + s3 / 4) :: (s3 % 4 * 64 + s4) :: bs)
        | _, _ => none
    | _, _ => none
  | _ => none

/-- `BASE64.encode` producing a `String` (as stored in `EncryptedMessage`). -/
def b64encode (bs : List Nat) : String := String.mk (b64encodeChars bs)

/-- `BASE64.decode` from a `String`. -/
def b64decode (s : String) : Option (List Nat) := b64decodeChars s.data

theorem dec64_enc64 : ∀ n, n < 64 → dec64 (enc64 n) = some n := by decide

theorem enc64_ne_pad : ∀ n, n < 64 → enc64 n ≠ '=' := by decide

theorem b64_roundtrip_chars :
    ∀ bs : List Nat, (∀ b ∈ bs, b < 256) → b64decodeChars (b64encodeChars bs) = some bs := by
  intro bs h
  induction bs using b64encodeChars.induct with
  | case1 b0 b1 b2 rest ih =>
    have hb0 : b0 < 256 := h b0 (by simp)
    have hb1 : b1 < 256 := h b1 (by simp)
    have hb2 : b2 < 256 := h b2 (by simp)
    have ih' := ih (fun b hb => h b (by simp [hb]))
    have e1 := dec64_enc64 (b0 / 4) (by omega)
    have e2 := dec64_enc64 (b0 % 4 * 16 + b1 / 16) (by omega)
    have e3 := dec64_enc64 (b1 % 16 * 4 + b2 / 64) (by omega)
    have e4 := dec64_enc64 (b2 % 64) (by omega)
    have hne : enc64 (b2 % 64) ≠ '=' := enc64_ne_pad _ (by omega)
    rw [b64encodeChars, b64decodeChars]
    simp only [e1, e2, e3, e4, hne, if_false, ih', Option.map_some', reduceIte,
      Option.some.injEq, List.cons.injEq, and_true, true_and]
    omega
  | case2 b0 b1 =>
    have hb0 : b0 < 256 := h b0 (by simp)
    have hb1 : b1 < 256 := h b1 (by simp)
    have e1 := dec64_enc64 (b0 / 4) (by omega)
    have e2 := dec64_enc64 (b0 % 4 * 16 + b1 / 16) (by omega)
    have e3 := dec64_enc64 (b1 % 16 * 4) (by omega)
    have hne : enc64 (b1 % 16 * 4) ≠ '=' := enc64_ne_pad _ (by omega)
    simp only [b64encodeChars, b64decodeChars, e1, e2, e3, hne, if_false, reduceIte, ne_eq,
      not_true_eq_false, Nat.mul_mod_left, Option.some.injEq, List.cons.injEq, and_true, true_and]
    omega
  | case3 b0 =>
    have hb0 : b0 < 256 := h b0 (by simp)
    have e1 := dec64_enc64 (b0 / 4) (by omega)
    have e2 := dec64_enc64 (b0 % 4 * 16) (by omega)
    simp only [b64encodeChars, b64decodeChars, e1, e2, reduceIte, ne_eq, not_true_eq_false,
      Nat.mul_mod_left, Option.some.injEq, List.cons.injEq, and_true, true_and]
    omega
  | case4 => rfl

theorem b64_roundtrip (bs : List Nat) (h : ∀ b ∈ bs, b < 256) :
    b64decode (b64encode bs) = some bs := by
  simpa [b64decode, b64encode] using b64_roundtrip_chars bs h

/-! ## UTF-8 (Rust `str::as_bytes`, `std::str::from_utf8`, `String::from_utf8`)

Rust strings are sequences of Unicode scalar values stored as UTF-8; Lean's
`Char` is the same scalar-value type, so a Rust `String`/`str` is modelled as
a Lean `String` and the byte view is computed by `charUtf8`.  `from_utf8` is
the strict decoder: it rejects overlong forms, surrogate code points, values
above `0x10FFFF`, stray continuation bytes and truncated sequences.  The
validity checks are stated on the decoded code point, which accepts exactly
the same byte strings as Rust's byte-range table. -/

/-- Rust `char::encode_utf8`: the UTF-8 bytes of one scalar value. -/
def charUtf8 (c : Char) : List Nat :=
  if c.toNat < 0x80 then [c.toNat]
  else if c.toNat < 0x800 then [0xC0 + c.toNat / 64, 0x80 + c.toNat % 64]
  else if c.toNat < 0x10000 then
    [0xE0 + c.toNat / 4096, 0x80 + c.toNat / 64 % 64, 0x80 + c.toNat % 64]
  else
    [0xF0 + c.toNat / 262144, 0x80 + c.toNat / 4096 % 64, 0x80 + c.toNat / 64 % 64,
      0x80 + c.toNat % 64]

/-- Rust `str::as_bytes` (e.g. `plaintext.as_bytes()` in `encrypt`). -/
def utf8Bytes (s : String) : List Nat := s.data.flatMap charUtf8

/-- Continuation handling for a two-byte UTF-8 sequence. -/
def utf8Step2 (b : Nat) : List Nat → Option (Char × List Nat)
  | b2 :: rest2 =>
    if 0xC2 ≤ b ∧ 0x80 ≤ b2 ∧ b2 < 0xC0 then
      some (Char.ofNat ((b - 0xC0) * 64 + (b2 - 0x80)), rest2)
    else none
  | [] => none

/-- Continuation handling for a three-byte UTF-8 sequence; rejects overlong
forms and surrogate code points. -/
def utf8Step3 (b : Nat) : List Nat → Option (Char × List Nat)
  | b2 :: b3 :: rest3 =>
    if 0x80 ≤ b2 ∧ b2 < 0xC0 ∧ 0x80 ≤ b3 ∧ b3 < 0xC0 ∧
        0x800 ≤ (b - 0xE0) * 4096 + (b2 - 0x80) * 64 + (b3 - 0x80) ∧
        ((b - 0xE0) * 4096 + (b2 - 0x80) * 64 + (b3 - 0x80) < 0xD800 ∨
          0xE000 ≤ (b - 0xE0) * 4096 + (b2 - 0x80) * 64 + (b3 - 0x80)) then
      some (Char.ofNat ((b - 0xE0) * 4096 + (b2 - 0x80) * 64 + (b3 - 0x80)), rest3)
    else none
  | _ => none

/-- Continuation handling for a four-byte UTF-8 sequence; rejects overlong
forms and code points above `0x10FFFF`. -/
def utf8Step4 (b : Nat) : List Nat → Option (Char × List Nat)
  | b2 :: b3 :: b4 :: rest4 =>
    if b < 0xF5 ∧ 0x80 ≤ b2 ∧ b2 < 0xC0 ∧ 0x80 ≤ b3 ∧ b3 < 0xC0 ∧ 0x80 ≤ b4 ∧ b4 < 0xC0 ∧
        0x10000 ≤ (b - 0xF0) * 262144 + (b2 - 0x80) * 4096 + (b3 - 0x80) * 64 + (b4 - 0x80) ∧
        (b - 0xF0) * 262144 + (b2 - 0x80) * 4096 + (b3 - 0x80) * 64 + (b4 - 0x80) < 0x110000 then
      some (Char.ofNat ((b - 0xF0) * 262144 + (b2 - 0x80) * 4096 + (b3 - 0x80) * 64 + (b4 - 0x80)),
        rest4)
    else none
  | _ => none

/-- Decode one scalar value from a first byte `b` and the remaining bytes:
strict UTF-8, exactly as Rust's `from_utf8` validation. -/
def utf8Step (b : Nat) (rest : List Nat) : Option (Char × List Nat) :=
  if b < 0x80 then some (Char.ofNat b, rest)
  else if b < 0xE0 then utf8Step2 b rest
  else if b < 0xF0 then utf8Step3 b rest
  else utf8Step4 b rest

/-- Fuel-driven strict UTF-8 decoding of a byte list to a scalar-value list.
Every step consumes at least one byte, so fuel equal to the list length is
always sufficient. -/
def utf8DecodeListF : Nat → List Nat → Option (List Char)
  | _, [] => some []
  | 0, _ :: _ => none
  | fuel + 1, b :: rest =>
    match utf8Step b rest with
    | some (c, rest2) => (utf8DecodeListF fuel rest2).map (c :: ·)
    | none => none

/-- Strict UTF-8 decoding to a scalar-value list; `none` on any invalid
input, exactly as Rust's `from_utf8` validation. -/
def utf8DecodeList (bs : List Nat) : Option (List Char) := utf8DecodeListF bs.length bs

/-- Rust `String::from_utf8` / `std::str::from_utf8` as used in `decrypt` and
in the host read loop: bytes to `String`, `none` on invalid UTF-8. -/
def utf8Decode (bs : List Nat) : Option String := (utf8DecodeList bs).map String.mk

theorem utf8Step_length (b : Nat) (rest : List Nat) (c : Char) (rest2 : List Nat)
    (h : utf8Step b rest = some (c, rest2)) : rest2.length ≤ rest.length := by
  rw [utf8Step] at h
  split_ifs at h
  · cases h; rfl
  · cases rest with
    | nil => simp [utf8Step2] at h
    | cons b2 r =>
      rw [utf8Step2] at h
      split_ifs at h
      cases h; simp
  · cases rest with
    | nil => simp [utf8Step3] at h
    | cons b2 r =>
      cases r with
      | nil => simp [utf8Step3] at h
      | cons b3 r3 =>
        rw [utf8Step3] at h
        split_ifs at h
        cases h; simp; omega
  · cases rest with
    | nil => simp [utf8Step4] at h
    | cons b2 r =>
      cases r with
      | nil => simp [utf8Step4] at h
      | cons b3 r3 =>
        cases r3 with
        | nil => simp [utf8Step4] at h
        | cons b4 r4 =>
          rw [utf8Step4] at h
          split_ifs at h
          cases h; simp; omega

theorem utf8DecodeListF_fuel :
    ∀ (f1 f2 : Nat) (l : List Nat), l.length ≤ f1 → l.length ≤ f2 →
      utf8DecodeListF f1 l = utf8DecodeListF f2 l := by
  intro f1
  induction f1 with
  | zero =>
    intro f2 l h1 _
    have : l = [] := List.eq_nil_of_length_eq_zero (by omega)
    subst this
    cases f2 <;> rfl
  | succ f1 ih =>
    intro f2 l h1 h2
    cases l with
    | nil => cases f2 <;> rfl
    | cons b rest =>
      cases f2 with
      | zero => simp at h2
      | succ f2 =>
        rw [utf8DecodeListF, utf8DecodeListF]
        cases hs : utf8Step b rest with
        | none => rfl
        | some p =>
          obtain ⟨c, rest2⟩ := p
          have hlen := utf8Step_length b rest c rest2 hs
          simp only [List.length_cons] at h1 h2
          change (utf8DecodeListF f1 rest2).map (c :: ·) = (utf8DecodeListF f2 rest2).map (c :: ·)
          rw [ih f2 rest2 (by omega) (by omega)]

/-- Unfolding `utf8DecodeList` at a cons cell. -/
theorem utf8DecodeList_cons (b : Nat) (rest : List Nat) :
    utf8DecodeList (b :: rest) =
      match utf8Step b rest with
      | some (c, rest2) => (utf8DecodeList rest2).map (c :: ·)
      | none => none := by
  rw [utf8DecodeList, List.length_cons, utf8DecodeListF]
  cases hs : utf8Step b rest with
  | none => rfl
  | some p =>
    obtain ⟨c, rest2⟩ := p
    have hlen := utf8Step_length b rest c rest2 hs
    change (utf8DecodeListF rest.length rest2).map (c :: ·) = (utf8DecodeList rest2).map (c :: ·)
    rw [utf8DecodeListF_fuel rest.length rest2.length rest2 hlen le_rfl]
    rfl

theorem char_valid (c : Char) :
    c.toNat < 0xD800 ∨ (0xDFFF < c.toNat ∧ c.toNat < 0x110000) := c.valid

theorem charToNat_ofNat (n : Nat) (h : n < 0xD800 ∨ (0xDFFF < n ∧ n < 0x110000)) :
    (Char.ofNat n).toNat = n := by
  have hv : n.isValidChar := by
    rcases h with h | ⟨h1, h2⟩
    · exact Or.inl h
    · exact Or.inr ⟨h1, h2⟩
  simp [Char.ofNat, hv]
  rfl

/-- `utf8Step` applied at the encoding of `c` decodes `c` and consumes exactly
its bytes. -/
theorem utf8Step_charUtf8 (c : Char) (rest : List Nat) (b : Nat) (tail : List Nat)
    (h : charUtf8 c ++ rest = b :: tail) : utf8Step b tail = some (c, rest) := by
  have hval := char_valid c
  by_cases h1 : c.toNat < 0x80
  · rw [charUtf8, if_pos h1] at h
    simp only [List.cons_append, List.nil_append, List.cons.injEq] at h
    obtain ⟨rfl, rfl⟩ := h
    rw [utf8Step, if_pos h1, Char.ofNat_toNat]
  · by_cases h2 : c.toNat < 0x800
    · rw [charUtf8, if_neg h1, if_pos h2] at h
      simp only [List.cons_append, List.nil_append, List.cons.injEq] at h
      obtain ⟨rfl, rfl⟩ := h
      rw [utf8Step, if_neg (by omega), if_pos (by omega), utf8Step2,
        if_pos ⟨by omega, by omega, by omega⟩]
      have hkey : (0xC0 + c.toNat / 64 - 0xC0) * 64 + (0x80 + c.toNat % 64 - 0x80) = c.toNat := by
        omega
      rw [hkey, Char.ofNat_toNat]
    · by_cases h3 : c.toNat < 0x10000
      · rw [charUtf8, if_neg h1, if_neg h2, if_pos h3] at h
        simp only [List.cons_append, List.nil_append, List.cons.injEq] at h
        obtain ⟨rfl, rfl⟩ := h
        have hkey : (0xE0 + c.toNat / 4096 - 0xE0) * 4096 +
            (0x80 + c.toNat / 64 % 64 - 0x80) * 64 + (0x80 + c.toNat % 64 - 0x80) = c.toNat := by
          omega
        rw [utf8Step, if_neg (by omega), if_neg (by omega), if_pos (by omega), utf8Step3,
          if_pos (by refine ⟨by omega, by omega, by omega, by omega, ?_, ?_⟩ <;>
            rw [hkey] <;> omega)]
        rw [hkey, Char.ofNat_toNat]
      · rw [charUtf8, if_neg h1, if_neg h2, if_neg h3] at h
        simp only [List.cons_append, List.nil_append, List.cons.injEq] at h
        obtain ⟨rfl, rfl⟩ := h
        have hkey : (0xF0 + c.toNat / 262144 - 0xF0) * 262144 +
            (0x80 + c.toNat / 4096 % 64 - 0x80) * 4096 +
            (0x80 + c.toNat / 64 % 64 - 0x80) * 64 + (0x80 + c.toNat % 64 - 0x80) = c.toNat := by
          omega
        rw [utf8Step, if_neg (by omega), if_neg (by omega), if_neg (by omega), utf8Step4,
          if_pos (by refine ⟨by omega, by omega, by omega, by omega, by omega, by omega,
            by omega, ?_, ?_⟩ <;> rw [hkey] <;> omega)]
        rw [hkey, Char.ofNat_toNat]

theorem utf8DecodeList_charUtf8 (c : Char) (rest : List Nat) :
    utf8DecodeList (charUtf8 c ++ rest) = (utf8DecodeList rest).map (c :: ·) := by
  have hne : charUtf8 c ≠ [] := by
    rw [charUtf8]
    split_ifs <;> simp
  cases hsh : charUtf8 c ++ rest with
  | nil =>
    exfalso
    have := List.append_eq_nil.mp hsh
    exact hne this.1
  | cons b tail =>
    rw [utf8DecodeList_cons, utf8Step_charUtf8 c rest b tail hsh]

theorem utf8DecodeList_encode_list :
    ∀ l : List Char, utf8DecodeList (l.flatMap charUtf8) = some l := by
  intro l
  induction l with
  | nil => rfl
  | cons c cs ih => rw [List.flatMap_cons, utf8DecodeList_charUtf8, ih, Option.map_some']

/-- Decoding the UTF-8 byte view of a string gives the string back. -/
theorem utf8_roundtrip (s : String) : utf8Decode (utf8Bytes s) = some s := by
  rw [utf8Decode, utf8Bytes, utf8DecodeList_encode_list, Option.map_some']

theorem utf8Step_append (b : Nat) (rest tail : List Nat) (c : Char) (rest2 : List Nat)
    (h : utf8Step b rest = some (c, rest2)) :
    utf8Step b (rest ++ tail) = some (c, rest2 ++ tail) := by
  rw [utf8Step] at h ⊢
  split_ifs at h ⊢
  · cases h; rfl
  · cases rest with
    | nil => simp [utf8Step2] at h
    | cons b2 r =>
      rw [utf8Step2] at h
      rw [List.cons_append, utf8Step2]
      split_ifs at h ⊢ with hc
      cases h; rfl
  · cases rest with
    | nil => simp [utf8Step3] at h
    | cons b2 r =>
      cases r with
      | nil => simp [utf8Step3] at h
      | cons b3 r3 =>
        rw [utf8Step3] at h
        rw [List.cons_append, List.cons_append, utf8Step3]
        split_ifs at h ⊢ with hc
        cases h; rfl
  · cases rest with
    | nil => simp [utf8Step4] at h
    | cons b2 r =>
      cases r with
      | nil => simp [utf8Step4] at h
      | cons b3 r3 =>
        cases r3 with
        | nil => simp [utf8Step4] at h
        | cons b4 r4 =>
          rw [utf8Step4] at h
          rw [List.cons_append, List.cons_append, List.cons_append, utf8Step4]
          split_ifs at h ⊢ with hc
          cases h; rfl

theorem utf8DecodeList_append_bounded :
    ∀ (n : Nat) (a : List Nat), a.length ≤ n → ∀ (b : List Nat) (la : List Char),
      utf8DecodeList a = some la →
      utf8DecodeList (a ++ b) = (utf8DecodeList b).map (la ++ ·) := by
  intro n
  induction n with
  | zero =>
    intro a ha b la h
    have : a = [] := List.eq_nil_of_length_eq_zero (by omega)
    subst this
    have : la = [] := by
      have : (some [] : Option (List Char)) = some la := h
      cases this; rfl
    subst this
    simp
  | succ n ih =>
    intro a ha b la h
    cases a with
    | nil =>
      have : la = [] := by
        have : (some [] : Option (List Char)) = some la := h
        cases this; rfl
      subst this
      simp
    | cons b0 rest =>
      rw [utf8DecodeList_cons] at h
      cases hs : utf8Step b0 rest with
      | none => rw [hs] at h; exact absurd h (by simp)
      | some p =>
        obtain ⟨c, rest2⟩ := p
        rw [hs] at h
        simp only at h
        obtain ⟨l2, hl2, hfa⟩ := Option.map_eq_some'.mp h
        subst hfa
        have hlen2 := utf8Step_length _ _ _ _ hs
        have halen : rest2.length ≤ n := by
          simp only [List.length_cons] at ha
          omega
        rw [List.cons_append, utf8DecodeList_cons, utf8Step_append b0 rest b c rest2 hs]
        simp only
        rw [ih rest2 halen b l2 hl2]
        cases utf8DecodeList b <;> simp

/-- Prepending a fully valid UTF-8 byte list to any byte list decodes
compositionally. -/
theorem utf8DecodeList_append (a b : List Nat) (la : List Char)
    (h : utf8DecodeList a = some la) :
    utf8DecodeList (a ++ b) = (utf8DecodeList b).map (la ++ ·) :=
  utf8DecodeList_append_bounded a.length a le_rfl b la h

/-- Two valid UTF-8 chunks concatenate to a valid chunk decoding to the
concatenation. -/
theorem utf8Decode_append (a b : List Nat) (sa sb : String)
    (ha : utf8Decode a = some sa) (hb : utf8Decode b = some sb) :
    utf8Decode (a ++ b) = some (sa ++ sb) := by
  rw [utf8Decode] at ha hb ⊢
  obtain ⟨la, hla, hsa⟩ := Option.map_eq_some'.mp ha
  obtain ⟨lb, hlb, hsb⟩ := Option.map_eq_some'.mp hb
  rw [utf8DecodeList_append a b la hla, hlb]
  simp only [Option.map_some', Option.some.injEq]
  subst hsa hsb
  apply String.ext
  simp

/-! ## Message structures (`shared_crypto/src/lib.rs`)

`Command`, `Response` and `EncryptedMessage` are plain serde structs; their
optional fields are `Option<String>`. -/

/-- `struct Command { action: String, data: Option<String> }`. -/
structure Command where
  action : String
  data : Option String
deriving DecidableEq

/-- `struct Response { status: String, message: String, response_to: Option<String> }`. -/
structure Response where
  status : String
  message : String
  response_to : Option String
deriving DecidableEq

/-- `struct EncryptedMessage { ciphertext: String, nonce: String }`, both
fields base64 text. -/
structure EncryptedMessage where
  ciphertext : String
  nonce : String
deriving DecidableEq

/-! ## JSON (the `serde_json` crate)

Both sides serialize with `serde_json::to_string` and parse with
`serde_json::from_str` through derived `Serialize`/`Deserialize` instances.
The model is a concrete JSON value type, a whitespace-tolerant text parser
(fuel-driven; the fuel chosen at the entry point always suffices because
every recursive step consumes input), the exact escaping serializer serde
uses, and per-struct field walkers with serde's derived semantics: unknown
fields ignored, duplicate known fields rejected, absent `Option` fields
defaulting to `None`, `Option<String>` accepting a string or `null`. -/

/-- JSON values; numbers keep their lexeme, which the message structs never
use (a number in a typed field is a type error for serde anyway). -/
inductive Json where
  | null : Json
  | bool (b : Bool) : Json
  | num (lexeme : List Char) : Json
  | str (s : String) : Json
  | arr (elems : List Json) : Json
  | obj (fields : List (String × Json)) : Json

/-- The opening-brace character, written numerically. -/
def lbrace : Char := Char.ofNat 123

/-- The closing-brace character, written numerically. -/
def rbrace : Char := Char.ofNat 125

/-- JSON insignificant whitespace (space, tab, newline, carriage return). -/
def jsonWs (c : Char) : Bool := c == ' ' || c == '\t' || c == '\n' || c == '\r'

/-- Skip leading JSON whitespace. -/
def skipWs : List Char → List Char
  | [] => []
  | c :: cs => if jsonWs c then skipWs cs else c :: cs

/-- Strip an expected literal sequence (used for `null`/`true`/`false`). -/
def stripPre : List Char → List Char → Option (List Char)
  | [], l => some l
  | e :: es, c :: cs => if c = e then stripPre es cs else none
  | _ :: _, [] => none

/-- Value of one hex digit (both cases), as in JSON `\u` escapes. -/
def hexVal (c : Char) : Option Nat :=
  if '0' ≤ c ∧ c ≤ '9' then some (c.toNat - 48)
  else if 'a' ≤ c ∧ c ≤ 'f' then some (c.toNat - 87)
  else if 'A' ≤ c ∧ c ≤ 'F' then some (c.toNat - 55)
  else none

/-- Four hex digits to a code unit. -/
def hex4 (h1 h2 h3 h4 : Char) : Option Nat :=
  match hexVal h1, hexVal h2, hexVal h3, hexVal h4 with
  | some a, some b, some c, some d => some (a * 4096 + b * 256 + c * 16 + d)
  | _, _, _, _ => none

/-- Short escapes accepted after a backslash in a JSON string. -/
def escChar (e : Char) : Option Char :=
  if e = '"' then some '"'
  else if e = '\\' then some '\\'
  else if e = '/' then some '/'
  else if e = 'b' then some (Char.ofNat 8)
  else if e = 'f' then some (Char.ofNat 12)
  else if e = 'n' then some '\n'
  else if e = 'r' then some '\r'
  else if e = 't' then some '\t'
  else none

/-- One step inside a JSON string body: the closing quote (`none` payload) or
one character — raw, short escape, or `\u` escape with surrogate-pair
handling and lone surrogates rejected, as `serde_json` does.  Raw control
characters are rejected. -/
def strStep : List Char → Option (Option Char × List Char) := fun l =>
  match l with
  | [] => none
  | c :: cs =>
    if c = '"' then some (none, cs)
    else if c = '\\' then
      match cs with
      | 'u' :: h1 :: h2 :: h3 :: h4 :: cs3 =>
        match hex4 h1 h2 h3 h4 with
        | some n =>
          if n < 0xD800 ∨ 0xDFFF < n then some (some (Char.ofNat n), cs3)
          else if n ≤ 0xDBFF then
            match cs3 with
            | '\\' :: 'u' :: g1 :: g2 :: g3 :: g4 :: cs4 =>
              match hex4 g1 g2 g3 g4 with
              | some m =>
                if 0xDC00 ≤ m ∧ m ≤ 0xDFFF then
                  some (some (Char.ofNat (0x10000 + (n - 0xD800) * 1024 + (m - 0xDC00))), cs4)
                else none
              | none => none
            | _ => none
          else none
        | none => none
      | e :: cs2 =>
        match escChar e with
        | some d => some (some d, cs2)
        | none => none
      | [] => none
    else if c.toNat < 0x20 then none
    else some (some c, cs)

/-- Fuel-driven JSON string-body parsing (after the opening quote), returning
the characters and the input after the closing quote.  Each step consumes at
least one character, so fuel equal to the input length suffices. -/
def strBodyF : Nat → List Char → Option (List Char × List Char)
  | 0, _ => none
  | fuel + 1, l =>
    match strStep l with
    | some (none, rest) => some ([], rest)
    | some (some c, rest) => (strBodyF fuel rest).map (fun p => (c :: p.1, p.2))
    | none => none

/-- Is `c` an ASCII digit? -/
def isDigitCh (c : Char) : Bool := decide ('0' ≤ c) && decide (c ≤ '9')

/-- Integer part of a JSON number (`0` or a nonzero digit run). -/
def numInt : List Char → Option (List Char × List Char)
  | '0' :: t => some (['0'], t)
  | c :: t =>
    if isDigitCh c then some (c :: t.takeWhile isDigitCh, t.dropWhile isDigitCh) else none
  | [] => none

/-- Optional fraction part of a JSON number. -/
def numFrac : List Char → Option (List Char × List Char)
  | '.' :: t =>
    match t with
    | c :: _ =>
      if isDigitCh c then some ('.' :: t.takeWhile isDigitCh, t.dropWhile isDigitCh) else none
    | [] => none
  | l => some ([], l)

/-- Optional exponent part of a JSON number. -/
def numExp : List Char → Option (List Char × List Char)
  | c :: t =>
    if c = 'e' ∨ c = 'E' then
      match t with
      | s :: t2 =>
        if s = '+' ∨ s = '-' then
          match t2 with
          | d :: _ =>
            if isDigitCh d then
              some (c :: s :: t2.takeWhile isDigitCh, t2.dropWhile isDigitCh)
            else none
          | [] => none
        else if isDigitCh s then some (c :: t.takeWhile isDigitCh, t.dropWhile isDigitCh)
        else none
      | [] => none
    else some ([], c :: t)
  | [] => some ([], [])

/-- A JSON number: optional sign, integer part, optional fraction/exponent;
returns the lexeme and the rest. -/
def parseNumber (l : List Char) : Option (List Char × List Char) :=
  match (match l with | '-' :: t => ((['-'] : List Char), t) | _ => (([] : List Char), l)) with
  | (sgn, l1) =>
    match numInt l1 with
    | some (ip, l2) =>
      match numFrac l2 with
      | some (fp, l3) =>
        match numExp l3 with
        | some (ep, l4) => some (sgn ++ ip ++ fp ++ ep, l4)
        | none => none
      | none => none
    | none => none

mutual

/-- Fuel-driven JSON value parsing (`serde_json` grammar).  Whitespace before
the value is the caller's responsibility. -/
def parseVal : Nat → List Char → Option (Json × List Char)
  | 0, _ => none
  | _ + 1, [] => none
  | fuel + 1, c :: cs =>
    if c = '"' then
      match strBodyF cs.length cs with
      | some (body, rest) => some (.str (String.mk body), rest)
      | none => none
    else if c = 'n' then
      match stripPre ['u', 'l', 'l'] cs with
      | some rest => some (.null, rest)
      | none => none
    else if c = 't' then
      match stripPre ['r', 'u', 'e'] cs with
      | some rest => some (.bool true, rest)
      | none => none
    else if c = 'f' then
      match stripPre ['a', 'l', 's', 'e'] cs with
      | some rest => some (.bool false, rest)
      | none => none
    else if c = lbrace then parseObjBody fuel (skipWs cs)
    else if c = '[' then parseArrBody fuel (skipWs cs)
    else
      match parseNumber (c :: cs) with
      | some (lex, rest) => some (.num lex, rest)
      | none => none

/-- Object body after `{` and whitespace: empty object or member list. -/
def parseObjBody : Nat → List Char → Option (Json × List Char)
  | 0, _ => none
  | _ + 1, [] => none
  | fuel + 1, d :: ds =>
    if d = rbrace then some (.obj [], ds)
    else
      match parseMembersRest fuel (d :: ds) with
      | some (ms, rest) => some (.obj ms, rest)
      | none => none

/-- Array body after `[` and whitespace: empty array or element list. -/
def parseArrBody : Nat → List Char → Option (Json × List Char)
  | 0, _ => none
  | _ + 1, [] => none
  | fuel + 1, d :: ds =>
    if d = ']' then some (.arr [], ds)
    else
      match parseElemsRest fuel (d :: ds) with
      | some (vs, rest) => some (.arr vs, rest)
      | none => none

/-- One or more `"key" : value` members separated by `,`, ending at `}`. -/
def parseMembersRest : Nat → List Char → Option (List (String × Json) × List Char)
  | 0, _ => none
  | _ + 1, [] => none
  | fuel + 1, c :: cs =>
    if c = '"' then
      match strBodyF cs.length cs with
      | some (k, r1) =>
        match skipWs r1 with
        | ':' :: r2 =>
          match parseVal fuel (skipWs r2) with
          | some (v, r3) =>
            match skipWs r3 with
            | d :: r4 =>
              if d = ',' then
                match parseMembersRest fuel (skipWs r4) with
                | some (ms, rest) => some ((String.mk k, v) :: ms, rest)
                | none => none
              else if d = rbrace then some ([(String.mk k, v)], r4)
              else none
            | [] => none
          | none => none
        | _ => none
      | none => none
    else none

/-- One or more values separated by `,`, ending at `]`. -/
def parseElemsRest : Nat → List Char → Option (List Json × List Char)
  | 0, _ => none
  | _ + 1, [] => none
  | fuel + 1, c :: cs =>
    match parseVal fuel (c :: cs) with
    | some (v, r1) =>
      match skipWs r1 with
      | d :: r2 =>
        if d = ',' then
          match parseElemsRest fuel (skipWs r2) with
          | some (vs, rest) => some (v :: vs, rest)
          | none => none
        else if d = ']' then some ([v], r2)
        else none
      | [] => none
    | none => none

end

/-- `serde_json::from_str`, value layer: parse one complete JSON value with
optional surrounding whitespace; `none` on anything else (bad syntax or
trailing characters).  The fuel bound is generous: every three fuel units
consume at least one input character. -/
def parseJsonText (s : String) : Option Json :=
  match parseVal (3 * s.data.length + 8) (skipWs s.data) with
  | some (v, r) => if skipWs r = [] then some v else none
  | none => none

/-- A required `String` field value: must be a JSON string. -/
def strField : Json → Option String
  | .str s => some s
  | _ => none

/-- An `Option<String>` field value: a JSON string or `null`. -/
def optStrField : Json → Option (Option String)
  | .str s => some (some s)
  | .null => some none
  | _ => none

/-- Derived `Deserialize` field walk for `Command`: `action` required string,
`data` optional string-or-null, unknown fields ignored, duplicates rejected. -/
def commandFields : List (String × Json) → Option String → Option (Option String) → Option Command
  | [], a, d =>
    match a with
    | some av => some ⟨av, d.getD none⟩
    | none => none
  | (k, v) :: rest, a, d =>
    if k = "action" then
      if a.isSome then none
      else
        match strField v with
        | some s => commandFields rest (some s) d
        | none => none
    else if k = "data" then
      if d.isSome then none
      else
        match optStrField v with
        | some o => commandFields rest a (some o)
        | none => none
    else commandFields rest a d

/-- Derived `Deserialize` for `Command` from a JSON value: must be an object. -/
def commandFromJson : Json → Option Command
  | .obj fields => commandFields fields none none
  | _ => none

/-- Derived `Deserialize` field walk for `Response`: `status` and `message`
required strings, `response_to` optional string-or-null. -/
def responseFields : List (String × Json) → Option String → Option String →
    Option (Option String) → Option Response
  | [], st, ms, rt =>
    match st, ms with
    | some sv, some mv => some ⟨sv, mv, rt.getD none⟩
    | _, _ => none
  | (k, v) :: rest, st, ms, rt =>
    if k = "status" then
      if st.isSome then none
      else
        match strField v with
        | some s => responseFields rest (some s) ms rt
        | none => none
    else if k = "message" then
      if ms.isSome then none
      else
        match strField v with
        | some s => responseFields rest st (some s) rt
        | none => none
    else if k = "response_to" then
      if rt.isSome then none
      else
        match optStrField v with
        | some o => responseFields rest st ms (some o)
        | none => none
    else responseFields rest st ms rt

/-- Derived `Deserialize` for `Response` from a JSON value. -/
def responseFromJson : Json → Option Response
  | .obj fields => responseFields fields none none none
  | _ => none

/-- Derived `Deserialize` field walk for `EncryptedMessage`: `ciphertext` and
`nonce` required strings. -/
def encryptedFields : List (String × Json) → Option String → Option String →
    Option EncryptedMessage
  | [], ct, nn =>
    match ct, nn with
    | some cv, some nv => some ⟨cv, nv⟩
    | _, _ => none
  | (k, v) :: rest, ct, nn =>
    if k = "ciphertext" then
      if ct.isSome then none
      else
        match strField v with
        | some s => encryptedFields rest (some s) nn
        | none => none
    else if k = "nonce" then
      if nn.isSome then none
      else
        match strField v with
        | some s => encryptedFields rest ct (some s)
        | none => none
    else encryptedFields rest ct nn

/-- Derived `Deserialize` for `EncryptedMessage` from a JSON value. -/
def encryptedFromJson : Json → Option EncryptedMessage
  | .obj fields => encryptedFields fields none none
  | _ => none

/-- `serde_json::from_str::<Command>`. -/
def decodeCommand (s : String) : Option Command := (parseJsonText s).bind commandFromJson

/-- `serde_json::from_str::<Response>`. -/
def decodeResponse (s : String) : Option Response := (parseJsonText s).bind responseFromJson

/-- `serde_json::from_str::<EncryptedMessage>`. -/
def decodeEncrypted (s : String) : Option EncryptedMessage :=
  (parseJsonText s).bind encryptedFromJson

/-- Lowercase hex digit, as `serde_json` emits in `\u00xx` escapes. -/
def hexDigitChar (n : Nat) : Char := "0123456789abcdef".data.getD n '0'

/-- `serde_json`'s string escaping: `"` and `\\` escaped, the five short
control escapes, `\u00xx` for other control characters, everything else
emitted raw. -/
def escapeChar (c : Char) : List Char :=
  if c = '"' then ['\\', '"']
  else if c = '\\' then ['\\', '\\']
  else if c = Char.ofNat 8 then ['\\', 'b']
  else if c = '\t' then ['\\', 't']
  else if c = '\n' then ['\\', 'n']
  else if c = Char.ofNat 12 then ['\\', 'f']
  else if c = '\r' then ['\\', 'r']
  else if c.toNat < 0x20 then
    ['\\', 'u', '0', '0', hexDigitChar (c.toNat / 16), hexDigitChar (c.toNat % 16)]
  else [c]

/-- Escaped body of a JSON string literal. -/
def escList (s : String) : List Char := s.data.flatMap escapeChar

/-- A JSON string literal for `s`. -/
def renderString (s : String) : List Char := '"' :: (escList s ++ ['"'])

/-- `serde_json::to_string` of a `Command`: fields in declaration order, no
spaces, `None` as `null`. -/
def encodeCommandChars (c : Command) : List Char :=
  lbrace :: (renderString "action" ++ ':' :: (renderString c.action ++
    ',' :: (renderString "data" ++ ':' ::
    ((match c.data with | none => ['n', 'u', 'l', 'l'] | some d => renderString d) ++ [rbrace]))))

/-- `serde_json::to_string` of a `Command` as a `String`. -/
def encodeCommand (c : Command) : String := String.mk (encodeCommandChars c)

/-- `serde_json::to_string` of a `Response`. -/
def encodeResponseChars (r : Response) : List Char :=
  lbrace :: (renderString "status" ++ ':' :: (renderString r.status ++
    ',' :: (renderString "message" ++ ':' :: (renderString r.message ++
    ',' :: (renderString "response_to" ++ ':' ::
    ((match r.response_to with | none => ['n', 'u', 'l', 'l'] | some d => renderString d) ++
      [rbrace]))))))

/-- `serde_json::to_string` of a `Response` as a `String`. -/
def encodeResponse (r : Response) : String := String.mk (encodeResponseChars r)

/-- `serde_json::to_string` of an `EncryptedMessage`. -/
def encodeEncryptedChars (e : EncryptedMessage) : List Char :=
  lbrace :: (renderString "ciphertext" ++ ':' :: (renderString e.ciphertext ++
    ',' :: (renderString "nonce" ++ ':' :: (renderString e.nonce ++ [rbrace]))))

/-- `serde_json::to_string` of an `EncryptedMessage` as a `String`. -/
def encodeEncrypted (e : EncryptedMessage) : String := String.mk (encodeEncryptedChars e)

/-- The JSON value `serde_json::to_string` serializes a `Command` to. -/
def jsonOfCommand (c : Command) : Json :=
  .obj [("action", .str c.action),
    ("data", match c.data with | none => .null | some d => .str d)]

/-- The JSON value `serde_json::to_string` serializes a `Response` to. -/
def jsonOfResponse (r : Response) : Json :=
  .obj [("status", .str r.status), ("message", .str r.message),
    ("response_to", match r.response_to with | none => .null | some d => .str d)]

/-! ### Parser/serializer roundtrip lemmas -/

theorem string_mk_data (s : String) : String.mk s.data = s := rfl

theorem hexVal_hexDigitChar : ∀ d, d < 16 → hexVal (hexDigitChar d) = some d := by decide

theorem hex4_zeros (x y : Char) (n : Nat) (hx : hexVal x = some (n / 16))
    (hy : hexVal y = some (n % 16)) (hn : n < 0x100) : hex4 '0' '0' x y = some n := by
  rw [hex4]
  have h0 : hexVal '0' = some 0 := by decide
  rw [h0, hx, hy]
  simp only [Option.some.injEq]
  omega

theorem strStep_escapeChar (c : Char) (rest : List Char) :
    strStep (escapeChar c ++ rest) = some (some c, rest) := by
  by_cases h1 : c = '"'
  · subst h1; rfl
  · by_cases h2 : c = '\\'
    · subst h2; rfl
    · by_cases h3 : c = Char.ofNat 8
      · subst h3; rfl
      · by_cases h4 : c = '\t'
        · subst h4; rfl
        · by_cases h5 : c = '\n'
          · subst h5; rfl
          · by_cases h6 : c = Char.ofNat 12
            · subst h6; rfl
            · by_cases h7 : c = '\r'
              · subst h7; rfl
              · by_cases h8 : c.toNat < 0x20
                · have hesc : escapeChar c = ['\\', 'u', '0', '0',
                      hexDigitChar (c.toNat / 16), hexDigitChar (c.toNat % 16)] := by
                    rw [escapeChar, if_neg h1, if_neg h2, if_neg h3, if_neg h4, if_neg h5,
                      if_neg h6, if_neg h7, if_pos h8]
                  have hh : hex4 '0' '0' (hexDigitChar (c.toNat / 16))
                      (hexDigitChar (c.toNat % 16)) = some c.toNat :=
                    hex4_zeros _ _ _ (hexVal_hexDigitChar _ (by omega))
                      (hexVal_hexDigitChar _ (by omega)) (by omega)
                  rw [hesc]
                  simp only [List.cons_append, List.nil_append]
                  rw [strStep]
                  simp only [reduceIte, hh, if_pos (Or.inl (by omega : c.toNat < 0xD800)),
                    Char.ofNat_toNat]
                  rw [if_neg (show ¬ ('\\' : Char) = '"' by decide)]
                · have hesc : escapeChar c = [c] := by
                    rw [escapeChar, if_neg h1, if_neg h2, if_neg h3, if_neg h4, if_neg h5,
                      if_neg h6, if_neg h7, if_neg h8]
                  rw [hesc, List.cons_append, List.nil_append, strStep.eq_def]
                  simp only [if_neg h1, if_neg h2, if_neg h8]

theorem strBodyF_esc :
    ∀ (l : List Char) (fuel : Nat), l.length < fuel → ∀ rest : List Char,
      strBodyF fuel (l.flatMap escapeChar ++ '"' :: rest) = some (l, rest) := by
  intro l
  induction l with
  | nil =>
    intro fuel hf rest
    obtain ⟨f, rfl⟩ : ∃ f, fuel = f + 1 := ⟨fuel - 1, by omega⟩
    rfl
  | cons c cs ih =>
    intro fuel hf rest
    obtain ⟨f, rfl⟩ : ∃ f, fuel = f + 1 := ⟨fuel - 1, by omega⟩
    rw [List.flatMap_cons, List.append_assoc, strBodyF, strStep_escapeChar c _]
    have hlen : cs.length < f := by
      simp only [List.length_cons] at hf
      omega
    simp only
    rw [ih f hlen rest]
    rfl

theorem escapeChar_length_pos (c : Char) : 1 ≤ (escapeChar c).length := by
  rw [escapeChar]
  split_ifs <;> simp

theorem escList_length_ge (l : List Char) : l.length ≤ (l.flatMap escapeChar).length := by
  induction l with
  | nil => simp
  | cons c cs ih =>
    rw [List.flatMap_cons, List.length_append, List.length_cons]
    have := escapeChar_length_pos c
    omega

theorem parseVal_str (fuel : Nat) (hf : 1 ≤ fuel) (s : String) (rest : List Char) :
    parseVal fuel (renderString s ++ rest) = some (.str s, rest) := by
  obtain ⟨f, rfl⟩ : ∃ f, fuel = f + 1 := ⟨fuel - 1, by omega⟩
  rw [renderString]
  simp only [List.append_assoc, List.cons_append, List.nil_append]
  rw [parseVal, if_pos rfl, show (escList s : List Char) = s.data.flatMap escapeChar from rfl]
  have hlen : s.data.length < (s.data.flatMap escapeChar ++ '"' :: rest).length := by
    rw [List.length_append, List.length_cons]
    have := escList_length_ge s.data
    omega
  rw [strBodyF_esc s.data _ hlen rest]

theorem parseVal_null (fuel : Nat) (hf : 1 ≤ fuel) (rest : List Char) :
    parseVal fuel ('n' :: 'u' :: 'l' :: 'l' :: rest) = some (.null, rest) := by
  obtain ⟨f, rfl⟩ : ∃ f, fuel = f + 1 := ⟨fuel - 1, by omega⟩
  rw [parseVal]
  simp [stripPre]

/-- Values appearing in serialized message structs: strings and `null`. -/
def FlatVal (v : Json) : Prop := (∃ s, v = .str s) ∨ v = .null

/-- Serialized form of a flat value. -/
def renderFlatVal : Json → List Char
  | .str s => renderString s
  | .null => ['n', 'u', 'l', 'l']
  | _ => []

theorem parseVal_flat (fuel : Nat) (hf : 1 ≤ fuel) (v : Json) (hv : FlatVal v)
    (rest : List Char) : parseVal fuel (renderFlatVal v ++ rest) = some (v, rest) := by
  rcases hv with ⟨s, rfl⟩ | rfl
  · exact parseVal_str fuel hf s rest
  · exact parseVal_null fuel hf rest

theorem renderFlatVal_head (v : Json) (hv : FlatVal v) :
    ∃ c t, renderFlatVal v = c :: t ∧ jsonWs c = false := by
  rcases hv with ⟨s, rfl⟩ | rfl
  · exact ⟨'"', _, rfl, by decide⟩
  · exact ⟨'n', _, rfl, by decide⟩

theorem skipWs_cons_of (c : Char) (l : List Char) (h : jsonWs c = false) :
    skipWs (c :: l) = c :: l := by
  rw [skipWs, h]
  rfl

/-- Serialized form of a nonempty member list, comma separated. -/
def renderMembers : List (String × Json) → List Char
  | [] => []
  | [(k, v)] => renderString k ++ ':' :: renderFlatVal v
  | (k, v) :: rest => renderString k ++ ':' :: (renderFlatVal v ++ ',' :: renderMembers rest)

theorem renderMembers_head (ms : List (String × Json)) (h : ms ≠ []) :
    ∃ t, renderMembers ms = '"' :: t := by
  match ms with
  | [(k, v)] => exact ⟨_, rfl⟩
  | (k, v) :: (m :: ms') => exact ⟨_, rfl⟩

theorem parseMembersRest_render :
    ∀ (ms : List (String × Json)), ms ≠ [] → (∀ p ∈ ms, FlatVal p.2) →
      ∀ fuel, 2 * ms.length ≤ fuel → ∀ rest,
        parseMembersRest fuel (renderMembers ms ++ rbrace :: rest) = some (ms, rest) := by
  intro ms
  induction ms with
  | nil => intro h; exact absurd rfl h
  | cons kv tail ih =>
    obtain ⟨k, v⟩ := kv
    intro _ hflat fuel hfuel rest
    have hv : FlatVal v := hflat (k, v) (by simp)
    obtain ⟨f, rfl⟩ : ∃ f, fuel = f + 1 := ⟨fuel - 1, by simp at hfuel; omega⟩
    cases tail with
    | nil =>
      rw [show renderMembers [(k, v)] = renderString k ++ ':' :: renderFlatVal v from rfl,
        renderString]
      simp only [List.append_assoc, List.cons_append, List.nil_append]
      rw [parseMembersRest, if_pos rfl,
        show (escList k : List Char) = k.data.flatMap escapeChar from rfl]
      have hlen : k.data.length < (k.data.flatMap escapeChar ++
          '"' :: (':' :: (renderFlatVal v ++ rbrace :: rest))).length := by
        rw [List.length_append, List.length_cons]
        have := escList_length_ge k.data
        omega
      rw [strBodyF_esc k.data _ hlen _]
      simp only
      rw [skipWs_cons_of ':' _ (by decide)]
      simp only
      obtain ⟨hc, ht, hhead, hws⟩ := renderFlatVal_head v hv
      rw [show skipWs (renderFlatVal v ++ rbrace :: rest) = renderFlatVal v ++ rbrace :: rest
        by rw [hhead, List.cons_append, skipWs_cons_of _ _ hws]]
      rw [parseVal_flat f (by simp at hfuel; omega) v hv _]
      simp only
      rw [skipWs_cons_of rbrace _ (by decide)]
      simp [string_mk_data]
      intro h
      exact absurd h (by decide)
    | cons m tail' =>
      rw [show renderMembers ((k, v) :: m :: tail') =
        renderString k ++ ':' :: (renderFlatVal v ++ ',' :: renderMembers (m :: tail'))
        from rfl, renderString]
      simp only [List.append_assoc, List.cons_append, List.nil_append]
      rw [parseMembersRest, if_pos rfl,
        show (escList k : List Char) = k.data.flatMap escapeChar from rfl]
      have hlen : k.data.length < (k.data.flatMap escapeChar ++
          '"' :: (':' :: (renderFlatVal v ++ ',' :: (renderMembers (m :: tail') ++
            rbrace :: rest)))).length := by
        rw [List.length_append, List.length_cons]
        have := escList_length_ge k.data
        omega
      rw [strBodyF_esc k.data _ hlen _]
      simp only
      rw [skipWs_cons_of ':' _ (by decide)]
      simp only
      obtain ⟨hc, ht, hhead, hws⟩ := renderFlatVal_head v hv
      rw [show skipWs (renderFlatVal v ++ ',' :: (renderMembers (m :: tail') ++ rbrace :: rest)) =
        renderFlatVal v ++ ',' :: (renderMembers (m :: tail') ++ rbrace :: rest)
        by rw [hhead, List.cons_append, skipWs_cons_of _ _ hws]]
      rw [parseVal_flat f (by simp at hfuel; omega) v hv _]
      simp only
      rw [skipWs_cons_of ',' _ (by decide)]
      simp only [if_true, reduceIte]
      obtain ⟨t2, hmh⟩ := renderMembers_head (m :: tail') (by simp)
      rw [show skipWs (renderMembers (m :: tail') ++ rbrace :: rest) =
        renderMembers (m :: tail') ++ rbrace :: rest
        by rw [hmh, List.cons_append, skipWs_cons_of _ _ (by decide)]]
      rw [ih (by simp) (fun p hp => hflat p (by simp [hp])) f
        (by simp at hfuel ⊢; omega) rest]

theorem renderMembers_length_ge :
    ∀ ms : List (String × Json), ms.length ≤ (renderMembers ms).length := by
  intro ms
  match ms with
  | [] => simp [renderMembers]
  | [(k, v)] =>
    simp only [renderMembers, List.length_cons, List.length_append, List.length_nil]
    omega
  | (k, v) :: m :: tail' =>
    have ih := renderMembers_length_ge (m :: tail')
    rw [show renderMembers ((k, v) :: m :: tail') =
      renderString k ++ ':' :: (renderFlatVal v ++ ',' :: renderMembers (m :: tail')) from rfl]
    simp only [List.length_cons, List.length_append] at ih ⊢
    omega

theorem parseVal_flatObj (ms : List (String × Json)) (hne : ms ≠ [])
    (hflat : ∀ p ∈ ms, FlatVal p.2) (fuel : Nat) (hfuel : 2 * ms.length + 2 ≤ fuel)
    (rest : List Char) :
    parseVal fuel (lbrace :: (renderMembers ms ++ rbrace :: rest)) = some (.obj ms, rest) := by
  obtain ⟨f, rfl⟩ : ∃ f, fuel = f + 1 := ⟨fuel - 1, by omega⟩
  rw [parseVal, if_neg (by decide : ¬ lbrace = '"'), if_neg (by decide : ¬ lbrace = 'n'),
    if_neg (by decide : ¬ lbrace = 't'), if_neg (by decide : ¬ lbrace = 'f'), if_pos rfl]
  obtain ⟨t, hh⟩ := renderMembers_head ms hne
  rw [show skipWs (renderMembers ms ++ rbrace :: rest) = renderMembers ms ++ rbrace :: rest by
    rw [hh, List.cons_append, skipWs_cons_of _ _ (by decide)]]
  obtain ⟨g, rfl⟩ : ∃ g, f = g + 1 := ⟨f - 1, by omega⟩
  rw [hh, List.cons_append, parseObjBody, if_neg (by decide : ¬ '"' = rbrace),
    ← List.cons_append, ← hh]
  rw [parseMembersRest_render ms hne hflat g (by omega) rest]

theorem parseJsonText_mk_flatObj (ms : List (String × Json)) (hne : ms ≠ [])
    (hflat : ∀ p ∈ ms, FlatVal p.2) :
    parseJsonText (String.mk (lbrace :: (renderMembers ms ++ rbrace :: []))) =
      some (.obj ms) := by
  rw [parseJsonText]
  rw [show (String.mk (lbrace :: (renderMembers ms ++ rbrace :: []))).data =
    lbrace :: (renderMembers ms ++ rbrace :: []) from rfl]
  rw [skipWs_cons_of lbrace _ (by decide)]
  have hlen := renderMembers_length_ge ms
  rw [parseVal_flatObj ms hne hflat _ (by
    simp only [List.length_cons, List.length_append]
    omega) []]
  simp [skipWs]

theorem encodeCommand_eq_mk (c : Command) :
    encodeCommand c = String.mk (lbrace ::
      (renderMembers [("action", .str c.action),
        ("data", match c.data with | none => .null | some d => .str d)] ++ rbrace :: [])) := by
  rw [encodeCommand]
  cases c with
  | mk a d =>
    cases d <;>
      simp [encodeCommandChars, renderMembers, renderFlatVal, List.append_assoc]

theorem parseJsonText_encodeCommand (c : Command) :
    parseJsonText (encodeCommand c) = some (jsonOfCommand c) := by
  rw [encodeCommand_eq_mk]
  rw [parseJsonText_mk_flatObj _ (by simp) ?_]
  · rfl
  · rintro p hp
    simp only [List.mem_cons, List.mem_singleton] at hp
    rcases hp with rfl | rfl | h
    · exact Or.inl ⟨c.action, rfl⟩
    · cases c.data with
      | none => exact Or.inr rfl
      | some d => exact Or.inl ⟨d, rfl⟩
    · simp at h

theorem encodeResponse_eq_mk (r : Response) :
    encodeResponse r = String.mk (lbrace ::
      (renderMembers [("status", .str r.status), ("message", .str r.message),
        ("response_to", match r.response_to with | none => .null | some d => .str d)] ++
        rbrace :: [])) := by
  rw [encodeResponse]
  cases r with
  | mk st ms rt =>
    cases rt <;>
      simp [encodeResponseChars, renderMembers, renderFlatVal, List.append_assoc]

theorem parseJsonText_encodeResponse (r : Response) :
    parseJsonText (encodeResponse r) = some (jsonOfResponse r) := by
  rw [encodeResponse_eq_mk]
  rw [parseJsonText_mk_flatObj _ (by simp) ?_]
  · rfl
  · rintro p hp
    simp only [List.mem_cons, List.mem_singleton] at hp
    rcases hp with rfl | rfl | rfl | h
    · exact Or.inl ⟨r.status, rfl⟩
    · exact Or.inl ⟨r.message, rfl⟩
    · cases r.response_to with
      | none => exact Or.inr rfl
      | some d => exact Or.inl ⟨d, rfl⟩
    · simp at h

theorem commandFromJson_jsonOf (c : Command) : commandFromJson (jsonOfCommand c) = some c := by
  cases c with
  | mk a d => cases d <;> rfl

theorem responseFromJson_jsonOf (r : Response) :
    responseFromJson (jsonOfResponse r) = some r := by
  cases r with
  | mk st ms rt => cases rt <;> rfl

/-- Round-trip for `Command` texts: `from_str(to_string(c)) == c`. -/
theorem decodeCommand_encodeCommand (c : Command) :
    decodeCommand (encodeCommand c) = some c := by
  rw [decodeCommand, parseJsonText_encodeCommand, Option.some_bind, commandFromJson_jsonOf]

/-- Round-trip for `Response` texts: `from_str(to_string(r)) == r`. -/
theorem decodeResponse_encodeResponse (r : Response) :
    decodeResponse (encodeResponse r) = some r := by
  rw [decodeResponse, parseJsonText_encodeResponse, Option.some_bind, responseFromJson_jsonOf]

theorem commandFields_no_action :
    ∀ (fields : List (String × Json)) (d : Option (Option String)),
      (∀ p ∈ fields, p.1 ≠ "action") → commandFields fields none d = none := by
  intro fields
  induction fields with
  | nil => intro d _; rfl
  | cons kv rest ih =>
    obtain ⟨k, v⟩ := kv
    intro d h
    have hk : k ≠ "action" := h (k, v) (by simp)
    rw [commandFields, if_neg hk]
    by_cases hd : k = "data"
    · rw [if_pos hd]
      cases d with
      | some dv => rfl
      | none =>
        show (match optStrField v with
          | some o => commandFields rest none (some o)
          | none => none) = none
        cases optStrField v with
        | some o => exact ih (some o) (fun p hp => h p (by simp [hp]))
        | none => rfl
    · rw [if_neg hd]
      exact ih d (fun p hp => h p (by simp [hp]))

theorem responseFields_no_status :
    ∀ (fields : List (String × Json)) (ms : Option String) (rt : Option (Option String)),
      (∀ p ∈ fields, p.1 ≠ "status") → responseFields fields none ms rt = none := by
  intro fields
  induction fields with
  | nil => intro ms rt _; rfl
  | cons kv rest ih =>
    obtain ⟨k, v⟩ := kv
    intro ms rt h
    have hk : k ≠ "status" := h (k, v) (by simp)
    rw [responseFields, if_neg hk]
    by_cases hm : k = "message"
    · rw [if_pos hm]
      cases ms with
      | some mv => rfl
      | none =>
        show (match strField v with
          | some s => responseFields rest none (some s) rt
          | none => none) = none
        cases strField v with
        | some sv => exact ih (some sv) rt (fun p hp => h p (by simp [hp]))
        | none => rfl
    · rw [if_neg hm]
      by_cases hr : k = "response_to"
      · rw [if_pos hr]
        cases rt with
        | some rv => rfl
        | none =>
          show (match optStrField v with
            | some o => responseFields rest none ms (some o)
            | none => none) = none
          cases optStrField v with
          | some o => exact ih ms (some o) (fun p hp => h p (by simp [hp]))
          | none => rfl
      · rw [if_neg hr]
        exact ih ms rt (fun p hp => h p (by simp [hp]))

theorem responseFields_no_message :
    ∀ (fields : List (String × Json)) (st : Option String) (rt : Option (Option String)),
      (∀ p ∈ fields, p.1 ≠ "message") → responseFields fields st none rt = none := by
  intro fields
  induction fields with
  | nil => intro st rt _; cases st <;> rfl
  | cons kv rest ih =>
    obtain ⟨k, v⟩ := kv
    intro st rt h
    have hk : k ≠ "message" := h (k, v) (by simp)
    rw [responseFields]
    by_cases hs : k = "status"
    · rw [if_pos hs]
      cases st with
      | some sv => rfl
      | none =>
        show (match strField v with
          | some s => responseFields rest (some s) none rt
          | none => none) = none
        cases strField v with
        | some sv => exact ih (some sv) rt (fun p hp => h p (by simp [hp]))
        | none => rfl
    · rw [if_neg hs, if_neg hk]
      by_cases hr : k = "response_to"
      · rw [if_pos hr]
        cases rt with
        | some rv => rfl
        | none =>
          show (match optStrField v with
            | some o => responseFields rest st none (some o)
            | none => none) = none
          cases optStrField v with
          | some o => exact ih st (some o) (fun p hp => h p (by simp [hp]))
          | none => rfl
      · rw [if_neg hr]
        exact ih st rt (fun p hp => h p (by simp [hp]))

/-! ## SHA-256 (the `sha2` crate, used by `CryptoSystem::new`)

`CryptoSystem::new` hashes the seed string once with SHA-256 to obtain the
32-byte AES key.  The hash is implemented concretely (FIPS 180-4) over `Nat`
words reduced mod `2^32`. -/

/-- Rotate a 32-bit word right by `n`. -/
def rotr32 (n x : Nat) : Nat := x / 2 ^ n + x % 2 ^ n * 2 ^ (32 - n)

/-- SHA-256 `Ch`. -/
def shaCh (x y z : Nat) : Nat := x &&& y ^^^ (x ^^^ 0xFFFFFFFF) &&& z

/-- SHA-256 `Maj`. -/
def shaMaj (x y z : Nat) : Nat := x &&& y ^^^ x &&& z ^^^ y &&& z

/-- SHA-256 `Σ0`. -/
def bsig0 (x : Nat) : Nat := rotr32 2 x ^^^ rotr32 13 x ^^^ rotr32 22 x

/-- SHA-256 `Σ1`. -/
def bsig1 (x : Nat) : Nat := rotr32 6 x ^^^ rotr32 11 x ^^^ rotr32 25 x

/-- SHA-256 `σ0`. -/
def ssig0 (x : Nat) : Nat := rotr32 7 x ^^^ rotr32 18 x ^^^ x / 2 ^ 3

/-- SHA-256 `σ1`. -/
def ssig1 (x : Nat) : Nat := rotr32 17 x ^^^ rotr32 19 x ^^^ x / 2 ^ 10

/-- The SHA-256 round constants. -/
def shaK : List Nat :=
  [1116352408, 1899447441, 3049323471, 3921009573, 961987163, 1508970993,
   2453635748, 2870763221, 3624381080, 310598401, 607225278, 1426881987,
   1925078388, 2162078206, 2614888103, 3248222580, 3835390401, 4022224774,
   264347078, 604807628, 770255983, 1249150122, 1555081692, 1996064986,
   2554220882, 2821834349, 2952996808, 3210313671, 3336571891, 3584528711,
   113926993, 338241895, 666307205, 773529912, 1294757372, 1396182291,
   1695183700, 1986661051, 2177026350, 2456956037, 2730485921, 2820302411,
   3259730800, 3345764771, 3516065817, 3600352804, 4094571909, 275423344,
   430227734, 506948616, 659060556, 883997877, 958139571, 1322822218,
   1537002063, 1747873779, 1955562222, 2024104815, 2227730452, 2361852424,
   2428436474, 2756734187, 3204031479, 3329325298]

/-- The SHA-256 initial hash value. -/
def shaH0 : List Nat :=
  [1779033703, 3144134277, 1013904242, 2773480762, 1359893119, 2600822924,
   528734635, 1541459225]

/-- `n` big-endian bytes of `x`. -/
def beBytes : Nat → Nat → List Nat
  | 0, _ => []
  | n + 1, x => beBytes n (x / 256) ++ [x % 256]

/-- `n` big-endian 32-bit words from bytes. -/
def beWords : Nat → List Nat → List Nat
  | 0, _ => []
  | n + 1, b0 :: b1 :: b2 :: b3 :: rest =>
    (b0 * 16777216 + b1 * 65536 + b2 * 256 + b3) :: beWords n rest
  | _, _ => []

/-- SHA-256 padding: `0x80`, zeros to 56 mod 64, 8-byte big-endian bit length. -/
def sha256Pad (msg : List Nat) : List Nat :=
  msg ++ 0x80 :: (List.replicate ((119 - msg.length % 64) % 64) 0 ++ beBytes 8 (msg.length * 8))

/-- Split into 64-byte blocks (fuel bounded by the list length). -/
def chunk64 : Nat → List Nat → List (List Nat)
  | 0, _ => []
  | _ + 1, [] => []
  | fuel + 1, l => l.take 64 :: chunk64 fuel (l.drop 64)

/-- Extend 16 message words to the 64-word schedule. -/
def schedW (w : List Nat) : List Nat :=
  (List.range 48).foldl (fun ws _ =>
    ws ++ [(ssig1 (ws.getD (ws.length - 2) 0) + ws.getD (ws.length - 7) 0 +
      ssig0 (ws.getD (ws.length - 15) 0) + ws.getD (ws.length - 16) 0) % 4294967296]) w

/-- One SHA-256 compression round over the eight working variables. -/
def shaRound (w : List Nat) (v : List Nat) (i : Nat) : List Nat :=
  match v with
  | [a, b, c, d, e, f, g, h] =>
    let t1 := (h + bsig1 e + shaCh e f g + shaK.getD i 0 + w.getD i 0) % 4294967296
    let t2 := (bsig0 a + shaMaj a b c) % 4294967296
    [(t1 + t2) % 4294967296, a, b, c, (d + t1) % 4294967296, e, f, g]
  | other => other

/-- SHA-256 compression of one block schedule into the running state. -/
def shaCompress (st w : List Nat) : List Nat :=
  List.zipWith (fun x y => (x + y) % 4294967296) st ((List.range 64).foldl (shaRound w) st)

/-- SHA-256 of a byte list, as a 32-byte list. -/
def sha256 (msg : List Nat) : List Nat :=
  let padded := sha256Pad msg
  ((chunk64 padded.length padded).foldl
    (fun st block => shaCompress st (schedW (beWords 16 block))) shaH0).flatMap (beBytes 4)

/-! ## Envelope codec (`CryptoSystem`, `shared_crypto/src/lib.rs`)

The AES-256-GCM cipher itself comes from the external `aes_gcm` crate and is
a parameter: an `AeadCipher` maps key, nonce and plaintext bytes to
ciphertext bytes (and back), `none` standing for the crate's `Err` (for
`dec`, an authentication failure).  `Nonce::from_slice` is
`GenericArray::from_slice`, which panics when the slice length is not 12;
the panic is modelled as the `crash` outcome. -/

/-- `enum CryptoError` of `shared_crypto`. -/
inductive CryptoError where
  | EncryptionFailed
  | DecryptionFailed
  | KeyCreationFailed
  | Base64DecodeFailed
  | Utf8DecodeFailed
deriving DecidableEq

/-- The result of a Rust computation that can also panic. -/
inductive Outcome (α : Type) where
  | ok (a : α) : Outcome α
  | err (e : CryptoError) : Outcome α
  | crash : Outcome α
deriving DecidableEq

/-- The `Display` impl of `CryptoError` (used by `e.to_string()` on the host). -/
def cryptoErrorMessage : CryptoError → String
  | .EncryptionFailed => "暗号化に失敗しました"
  | .DecryptionFailed => "復号化に失敗しました"
  | .KeyCreationFailed => "暗号鍵の作成に失敗しました"
  | .Base64DecodeFailed => "Base64デコードに失敗しました"
  | .Utf8DecodeFailed => "UTF-8デコードに失敗しました"

/-- The external AEAD cipher (`Aes256Gcm`): encryption and decryption on byte
lists; `none` models the crate's `Err`. -/
structure AeadCipher where
  enc : List Nat → List Nat → List Nat → Option (List Nat)
  dec : List Nat → List Nat → List Nat → Option (List Nat)

/-- `struct CryptoSystem { key: [u8; 32] }`; the fixed-length array type is
modelled as a byte list, with `length = 32` carried as a hypothesis where a
theorem needs it. -/
structure CryptoSystem where
  key : List Nat

/-- `CryptoSystem::from_key`. -/
def CryptoSystem.fromKey (key : List Nat) : CryptoSystem := ⟨key⟩

/-- `CryptoSystem::new`: SHA-256 of the seed string becomes the key. -/
def CryptoSystem.mkNew (seed : String) : CryptoSystem := ⟨sha256 (utf8Bytes seed)⟩

/-- `create_default_crypto()`: the fixed demo seed. -/
def createDefaultCrypto : CryptoSystem := CryptoSystem.mkNew "ESP32_TAURI_DEMO_KEY_2025"

/-- `CryptoSystem::encrypt`: build the cipher (checking the key length, as
`new_from_slice` does), take the freshly drawn 12-byte random nonce (passed
here as the `nonceBytes` argument; `OsRng.fill_bytes` always yields 12
bytes), AEAD-encrypt the UTF-8 bytes of the plaintext, and base64-encode
ciphertext and nonce. -/
def CryptoSystem.encrypt (A : AeadCipher) (cs : CryptoSystem) (nonceBytes : List Nat)
    (plaintext : String) : Outcome EncryptedMessage :=
  if cs.key.length ≠ 32 then .err .KeyCreationFailed
  else if nonceBytes.length ≠ 12 then .crash
  else
    match A.enc cs.key nonceBytes (utf8Bytes plaintext) with
    | none => .err .EncryptionFailed
    | some ct => .ok ⟨b64encode ct, b64encode nonceBytes⟩

/-- `CryptoSystem::decrypt`: build the cipher, base64-decode the nonce
(`Base64DecodeFailed` on failure), pass it to `Nonce::from_slice` (which
panics unless the decoded length is exactly 12), base64-decode the
ciphertext, AEAD-decrypt (`DecryptionFailed` on failure), and decode the
plaintext as UTF-8 (`Utf8DecodeFailed` on failure). -/
def CryptoSystem.decrypt (A : AeadCipher) (cs : CryptoSystem) (encrypted : EncryptedMessage) :
    Outcome String :=
  if cs.key.length ≠ 32 then .err .KeyCreationFailed
  else
    match b64decode encrypted.nonce with
    | none => .err .Base64DecodeFailed
    | some nb =>
      if nb.length ≠ 12 then .crash
      else
        match b64decode encrypted.ciphertext with
        | none => .err .Base64DecodeFailed
        | some cb =>
          match A.dec cs.key nb cb with
          | none => .err .DecryptionFailed
          | some pt =>
            match utf8Decode pt with
            | none => .err .Utf8DecodeFailed
            | some s => .ok s

/-- `CryptoSystem::encrypt_command`: serialize then encrypt.  Serialization
of a `Command` cannot fail, so the `EncryptionFailed` mapping of a
serialization error is dead code. -/
def CryptoSystem.encryptCommand (A : AeadCipher) (cs : CryptoSystem) (nonceBytes : List Nat)
    (c : Command) : Outcome EncryptedMessage :=
  CryptoSystem.encrypt A cs nonceBytes (encodeCommand c)

/-- A concrete `AeadCipher` used to instantiate witnesses: appends a zero
tag byte on encryption and checks and removes it on decryption. -/
def toyCipher : AeadCipher where
  enc := fun _ _ p => some (p ++ [0])
  dec := fun _ _ c => if c.getLast? = some 0 then some c.dropLast else none

theorem toyCipher_roundtrip (k n p c : List Nat) (h : toyCipher.enc k n p = some c) :
    toyCipher.dec k n c = some p := by
  simp only [toyCipher, Option.some.injEq] at h
  subst h
  simp [toyCipher, List.getLast?_concat, List.dropLast_concat]

theorem toyCipher_bytes (k n p c : List Nat) (h : toyCipher.enc k n p = some c)
    (hp : ∀ b ∈ p, b < 256) : ∀ b ∈ c, b < 256 := by
  simp only [toyCipher, Option.some.injEq] at h
  subst h
  intro b hb
  rcases List.mem_append.mp hb with h1 | h1
  · exact hp b h1
  · simp at h1
    omega

/-! ## Device-side loop (`backend/src/lib.rs`)

The loop reads one line at a time, trims it, silently skips lines that are
empty after trimming, otherwise parses a `Command` and dispatches on the
action string.  Emission of a `Response` (`send_response` printing its JSON)
is modelled by returning the list of `Response` values produced for the
line. -/

/-- `send_response`'s `Response` construction. -/
def mkResponse (status message : String) (response_to : Option String) : Response :=
  ⟨status, message, response_to⟩

/-- `process_command`: dispatch on the action string, with the exact response
texts of the source. -/
def processCommand (c : Command) : List Response :=
  if c.action = "hello" then
    [mkResponse "hello_response" "🎉 Hello from ESP32! Bidirectional crypto communication works!"
      (some "hello")]
  else if c.action = "ping" then [mkResponse "pong" "🏓 Pong from ESP32!" (some "ping")]
  else if c.action = "status" then
    [mkResponse "status_response" "✅ ESP32 is running normally" (some "status")]
  else [mkResponse "error" "Unknown command" (some c.action)]

/-- Rust `char::is_whitespace`: the Unicode `White_Space` code points. -/
def rustWs (c : Char) : Bool :=
  [0x9, 0xA, 0xB, 0xC, 0xD, 0x20, 0x85, 0xA0, 0x1680, 0x2000, 0x2001, 0x2002, 0x2003, 0x2004,
    0x2005, 0x2006, 0x2007, 0x2008, 0x2009, 0x200A, 0x2028, 0x2029, 0x202F, 0x205F,
    0x3000].contains c.toNat

/-- Rust `str::trim` (drop leading and trailing whitespace characters). -/
def rustTrim (s : String) : String :=
  String.mk ((s.data.dropWhile rustWs).reverse.dropWhile rustWs).reverse

/-- `process_line`: trim, skip empty, parse a `Command` and dispatch, or
answer `Invalid JSON format`. -/
def processLine (line : String) : List Response :=
  if rustTrim line = "" then []
  else
    match decodeCommand (rustTrim line) with
    | some c => processCommand c
    | none => [mkResponse "error" "Invalid JSON format" none]

/-! ## Host-side link manager (`gui/src-tauri/src/main.rs`)

The reader thread opens the port, stores a write-capable clone in the shared
slot, and loops reading raw chunks into a `String` accumulator
(`line_buffer`), extracting every complete line.  A chunk that is not valid
UTF-8 fails the `std::str::from_utf8` check and is dropped whole.  Each
extracted line is trimmed; empty lines are skipped; the rest are classified
(plain `Response`, then `EncryptedMessage`, then raw). -/

/-- Split a character buffer at every newline: the complete lines (without
their newline) in order, and the trailing partial line. -/
def splitLines : List Char → List (List Char) × List Char
  | [] => ([], [])
  | c :: cs =>
    if c = '\n' then ([] :: (splitLines cs).1, (splitLines cs).2)
    else
      match splitLines cs with
      | (l :: ls, r) => ((c :: l) :: ls, r)
      | ([], r) => ([], c :: r)

/-- Trim each complete line and keep the nonempty ones, in order (the body
of the `while let Some(newline_pos)` loop). -/
def emitLines (ls : List (List Char)) : List String :=
  ls.filterMap (fun l =>
    if rustTrim (String.mk l) = "" then none else some (rustTrim (String.mk l)))

/-- Feed one raw chunk into the accumulator: decode it as UTF-8 (a chunk that
fails the check is dropped entirely, processing nothing), append to the
pending buffer, and extract all complete lines.  Returns the new pending
buffer and the trimmed nonempty lines emitted. -/
def feedChunk (st : List Char) (chunk : List Nat) : List Char × List String :=
  match utf8Decode chunk with
  | none => (st, [])
  | some s =>
    match splitLines (st ++ s.data) with
    | (ls, r) => (r, emitLines ls)

/-- Feed a sequence of chunks, concatenating the emitted lines. -/
def feedChunks : List Char → List (List Nat) → List Char × List String
  | st, [] => (st, [])
  | st, ch :: rest =>
    match feedChunk st ch with
    | (st2, out) =>
      match feedChunks st2 rest with
      | (st3, outs) => (st3, out ++ outs)

/-- The reconnect loop's delay bookkeeping: starting from the current
`reconnect_delay`, each attempt either fails (sleep the current delay) or
succeeds (`reconnect_delay = 1`, and when the connection is later lost the
loop bottom sleeps that reset delay); after sleeping, the loop bottom sets
`reconnect_delay = min(reconnect_delay + 1, 5)`.  Returns the sequence of
slept delays, one per attempt. -/
def sleptSeq : Nat → List Bool → List Nat
  | _, [] => []
  | d, success :: rest =>
    (if success then 1 else d) :: sleptSeq (min ((if success then 1 else d) + 1) 5) rest

/-- A write-capable serial-port handle: the bytes written so far, and the
I/O error text `write_all` currently fails with, if any. -/
structure SerialPort where
  written : List Nat
  writeError : Option String
deriving DecidableEq

/-- `write_all`. -/
def writeAll (p : SerialPort) (bs : List Nat) : Option SerialPort :=
  match p.writeError with
  | some _ => none
  | none => some ⟨p.written ++ bs, none⟩

/-- The not-connected error text of both senders. -/
def notConnectedMsg : String := "Serial port not connected. Please start serial listener first."

/-- `send_command`: serialize the `Command`, append a newline, and write it
to the published handle; with no handle published, fail with
`notConnectedMsg` and touch nothing. -/
def sendCommand (slot : Option SerialPort) (action : String) (data : Option String) :
    Option SerialPort × Except String String :=
  match slot with
  | some port =>
    match writeAll port (utf8Bytes (encodeCommand ⟨action, data⟩ ++ "\n")) with
    | some p2 => (some p2, .ok ("Command '" ++ action ++ "' sent successfully"))
    | none =>
      (some port, .error ("Failed to send command: " ++ port.writeError.getD ""))
  | none => (none, .error notConnectedMsg)

/-- `struct SimpleCryptoState`. -/
structure SimpleCryptoState where
  crypto_system : CryptoSystem
  is_ready : Bool

/-- `initialize_lightweight_crypto`: set the default crypto system and mark
ready. -/
def initializeLightweightCrypto (_st : SimpleCryptoState) :
    SimpleCryptoState × Except String String :=
  (⟨createDefaultCrypto, true⟩, .ok "Lightweight crypto system ready")

/-- The `SimpleCryptoState` `main` installs at startup (`main.rs` 352-355):
ready from the start, before any call to `initialize_lightweight_crypto`. -/
def mainInitialCryptoState : SimpleCryptoState := ⟨createDefaultCrypto, true⟩

/-- The crypto-not-ready error text of `send_lightweight_encrypted_command`. -/
def notReadyMsg : String := "Lightweight crypto not initialized. Please initialize first."

/-- `send_lightweight_encrypted_command`: check the ready flag, encrypt the
`Command` through the envelope codec, serialize the envelope, and write it
newline-terminated; `none` models a panic inside `encrypt`. -/
def sendLightweightEncryptedCommand (A : AeadCipher) (nonceBytes : List Nat)
    (cst : SimpleCryptoState) (slot : Option SerialPort) (action : String)
    (data : Option String) : Option (Option SerialPort × Except String String) :=
  if cst.is_ready = false then some (slot, .error notReadyMsg)
  else
    match CryptoSystem.encryptCommand A cst.crypto_system nonceBytes ⟨action, data⟩ with
    | .err e => some (slot, .error (cryptoErrorMessage e))
    | .crash => none
    | .ok env =>
      match slot with
      | some port =>
        match writeAll port (utf8Bytes (encodeEncrypted env ++ "\n")) with
        | some p2 =>
          some (some p2, .ok ("Lightweight encrypted command '" ++ action ++
            "' sent successfully"))
        | none =>
          some (some port, .error ("Failed to send encrypted command: " ++
            port.writeError.getD ""))
      | none => some (none, .error notConnectedMsg)

/-- The events the read loop publishes to the GUI layer. -/
inductive HostEvent where
  | responseReceived (r : Response)
  | encryptedReceived (e : EncryptedMessage)
  | rawMessage (line : String)
deriving DecidableEq

/-- Classification of one emitted line (`main.rs` 120-166): try a plain
`Response` first; otherwise try an `EncryptedMessage` and decrypt it at once
with the fixed default key (`decrypt_received_message_internal`), the
decrypted text itself tried as a `Response`; otherwise the line is raw.
Returns the emitted events in order and the new cached last-message string;
`none` models a decrypt panic crashing the reader thread. -/
def handleLine (A : AeadCipher) (line : String) : Option (List HostEvent × String) :=
  match decodeResponse line with
  | some r => some ([.responseReceived r], "✅ " ++ r.message)
  | none =>
    match decodeEncrypted line with
    | some e =>
      match CryptoSystem.decrypt A createDefaultCrypto e with
      | .ok s =>
        match decodeResponse s with
        | some r2 => some ([.encryptedReceived e, .responseReceived r2], "🔓 " ++ r2.message)
        | none => some ([.encryptedReceived e], "🔓 " ++ s)
      | .err er => some ([.encryptedReceived e], "❌ Decryption error: " ++ cryptoErrorMessage er)
      | .crash => none
    | none => some ([.rawMessage line], line)

/-! ### Supporting lemmas on the accumulator, the backoff, and byte ranges -/

theorem splitLines_rem_no_nl : ∀ l : List Char, '\n' ∉ (splitLines l).2 := by
  intro l
  induction l with
  | nil => simp [splitLines]
  | cons c cs ih =>
    rw [splitLines]
    by_cases hc : c = '\n'
    · rw [if_pos hc]
      exact ih
    · rw [if_neg hc]
      rcases h1 : splitLines cs with ⟨ls, r⟩
      rw [h1] at ih
      cases ls with
      | nil =>
        simp only [List.mem_cons, not_or]
        exact ⟨fun h => hc h.symm, ih⟩
      | cons l0 ls' => exact ih

theorem splitLines_of_no_nl : ∀ l : List Char, '\n' ∉ l → splitLines l = ([], l) := by
  intro l
  induction l with
  | nil => intro _; rfl
  | cons c cs ih =>
    intro h
    simp only [List.mem_cons, not_or] at h
    rw [splitLines, if_neg (fun hh => h.1 hh.symm), ih h.2]

theorem splitLines_append : ∀ a b : List Char,
    splitLines (a ++ b) =
      ((splitLines a).1 ++ (splitLines ((splitLines a).2 ++ b)).1,
        (splitLines ((splitLines a).2 ++ b)).2) := by
  intro a
  induction a with
  | nil => intro b; simp [splitLines]
  | cons c cs ih =>
    intro b
    rw [List.cons_append, splitLines, splitLines]
    by_cases hc : c = '\n'
    · rw [if_pos hc, if_pos hc, ih b]
      simp
    · rw [if_neg hc, if_neg hc]
      rcases h1 : splitLines cs with ⟨ls, r⟩
      have ihb := ih b
      rw [h1] at ihb
      cases ls with
      | nil =>
        simp only at ihb
        rw [ihb]
        rcases h2 : splitLines (r ++ b) with ⟨ls2, r2⟩
        simp only [List.nil_append]
        rw [List.cons_append, splitLines, if_neg hc, h2]
      | cons l0 ls' =>
        simp only at ihb
        rw [ihb]
        simp

theorem emitLines_append (l1 l2 : List (List Char)) :
    emitLines (l1 ++ l2) = emitLines l1 ++ emitLines l2 := by
  rw [emitLines, emitLines, emitLines, List.filterMap_append]

theorem feedChunk_rem_no_nl (st : List Char) (ch : List Nat) (hst : '\n' ∉ st) :
    '\n' ∉ (feedChunk st ch).1 := by
  rw [feedChunk]
  cases hd : utf8Decode ch with
  | none => exact hst
  | some s =>
    rcases h1 : splitLines (st ++ s.data) with ⟨ls, r⟩
    simp only [h1]
    have := splitLines_rem_no_nl (st ++ s.data)
    rw [h1] at this
    exact this

theorem utf8Decode_flatten :
    ∀ chunks : List (List Nat), (∀ ch ∈ chunks, ∃ s, utf8Decode ch = some s) →
      ∃ s, utf8Decode chunks.flatten = some s := by
  intro chunks
  induction chunks with
  | nil => intro _; exact ⟨"", rfl⟩
  | cons c1 rest ih =>
    intro h
    obtain ⟨s1, hs1⟩ := h c1 (by simp)
    obtain ⟨sr, hsr⟩ := ih (fun ch hch => h ch (by simp [hch]))
    exact ⟨s1 ++ sr, by rw [List.flatten_cons]; exact utf8Decode_append _ _ _ _ hs1 hsr⟩

/-- Feeding chunks that are each valid UTF-8 is the same as feeding their
concatenation in one call: no byte is lost or duplicated, and the emitted
line sequence does not depend on the chunk boundaries. -/
theorem feedChunks_flatten :
    ∀ (chunks : List (List Nat)) (st : List Char), '\n' ∉ st →
      (∀ ch ∈ chunks, ∃ s, utf8Decode ch = some s) →
      feedChunks st chunks = feedChunk st chunks.flatten := by
  intro chunks
  induction chunks with
  | nil =>
    intro st hst _
    rw [feedChunks, show (List.flatten [] : List Nat) = [] from rfl, feedChunk]
    rw [show utf8Decode [] = some "" from rfl]
    simp only
    rw [List.append_nil, splitLines_of_no_nl st hst]
    rfl
  | cons c1 rest ih =>
    intro st hst hv
    obtain ⟨s1, hs1⟩ := hv c1 (by simp)
    obtain ⟨sr, hsr⟩ := utf8Decode_flatten rest (fun ch hch => hv ch (by simp [hch]))
    rw [feedChunks, List.flatten_cons]
    rw [show feedChunk st (c1 ++ rest.flatten) =
      match utf8Decode (c1 ++ rest.flatten) with
      | none => (st, [])
      | some s =>
        match splitLines (st ++ s.data) with
        | (ls, r) => (r, emitLines ls) from rfl]
    rw [utf8Decode_append _ _ _ _ hs1 hsr]
    simp only
    rw [show (s1 ++ sr).data = s1.data ++ sr.data from String.data_append s1 sr]
    rw [show st ++ (s1.data ++ sr.data) = (st ++ s1.data) ++ sr.data from
      (List.append_assoc st s1.data sr.data).symm]
    rw [splitLines_append (st ++ s1.data) sr.data]
    rw [show feedChunk st c1 =
      match splitLines (st ++ s1.data) with
      | (ls, r) => (r, emitLines ls) by rw [feedChunk, hs1]]
    rcases h1 : splitLines (st ++ s1.data) with ⟨L1, R1⟩
    simp only
    have hR1 : '\n' ∉ R1 := by
      have := splitLines_rem_no_nl (st ++ s1.data)
      rw [h1] at this
      exact this
    rw [ih R1 hR1 (fun ch hch => hv ch (by simp [hch]))]
    rw [show feedChunk R1 rest.flatten =
      match splitLines (R1 ++ sr.data) with
      | (ls, r) => (r, emitLines ls) by rw [feedChunk, hsr]]
    rcases h2 : splitLines (R1 ++ sr.data) with ⟨L2, R2⟩
    simp only
    rw [emitLines_append]

theorem sleptSeq_replicate_false :
    ∀ (N c : Nat), 1 ≤ c →
      sleptSeq (min c 5) (List.replicate N false) =
        (List.range N).map (fun i => min (c + i) 5) := by
  intro N
  induction N with
  | zero => intro c _; rfl
  | succ n ih =>
    intro c hc
    rw [List.replicate_succ, sleptSeq]
    simp only [if_neg (by simp : ¬ (false = true))]
    rw [show min (min c 5 + 1) 5 = min (c + 1) 5 by omega]
    rw [ih (c + 1) (by omega)]
    rw [List.range_succ_eq_map]
    simp only [List.map_cons, List.map_map]
    have hfun : ((fun i => min (c + i) 5) ∘ Nat.succ) = fun i => min (c + 1 + i) 5 := by
      funext i
      simp only [Function.comp, Nat.succ_eq_add_one]
      omega
    rw [hfun]
    norm_num

theorem charUtf8_lt_256 (c : Char) : ∀ b ∈ charUtf8 c, b < 256 := by
  intro b hb
  have hval := char_valid c
  rw [charUtf8] at hb
  split_ifs at hb with h1 h2 h3
  · simp at hb; omega
  · simp at hb
    rcases hb with rfl | rfl <;> omega
  · simp at hb
    rcases hb with rfl | rfl | rfl <;> omega
  · simp at hb
    have hup : c.toNat < 0x110000 := by omega
    rcases hb with rfl | rfl | rfl | rfl <;> omega

theorem utf8Bytes_lt_256 (s : String) : ∀ b ∈ utf8Bytes s, b < 256 := by
  intro b hb
  rw [utf8Bytes] at hb
  obtain ⟨c, _, hbc⟩ := List.mem_flatMap.mp hb
  exact charUtf8_lt_256 c b hbc

/-! ## Claim theorems -/

/-- C1: for every UTF-8 string `m` and every 256-bit key, decrypting the
envelope produced by a successful `CryptoSystem::encrypt` under the same
`CryptoSystem` yields `Ok` of the original plaintext
(`open(key, seal(key, m)) == m`); stated for every AEAD cipher whose
decryption inverts its encryption under this key and nonce and which
produces byte-valued ciphertexts. -/
theorem C1_seal_open_roundtrip (A : AeadCipher) (cs : CryptoSystem) (nonceBytes : List Nat)
    (m : String) (env : EncryptedMessage)
    (hkey : cs.key.length = 32) (hnlen : nonceBytes.length = 12)
    (hnb : ∀ b ∈ nonceBytes, b < 256)
    (haead : ∀ p c, A.enc cs.key nonceBytes p = some c → A.dec cs.key nonceBytes c = some p)
    (hcb : ∀ c, A.enc cs.key nonceBytes (utf8Bytes m) = some c → ∀ b ∈ c, b < 256)
    (henc : CryptoSystem.encrypt A cs nonceBytes m = .ok env) :
    CryptoSystem.decrypt A cs env = .ok m := by
  rw [CryptoSystem.encrypt, if_neg (by simp [hkey]), if_neg (by simp [hnlen])] at henc
  cases hae : A.enc cs.key nonceBytes (utf8Bytes m) with
  | none => rw [hae] at henc; exact absurd henc (by simp)
  | some ct =>
    rw [hae] at henc
    simp only [Outcome.ok.injEq] at henc
    subst henc
    rw [CryptoSystem.decrypt, if_neg (by simp [hkey])]
    rw [show (EncryptedMessage.mk (b64encode ct) (b64encode nonceBytes)).nonce =
      b64encode nonceBytes from rfl]
    rw [show (EncryptedMessage.mk (b64encode ct) (b64encode nonceBytes)).ciphertext =
      b64encode ct from rfl]
    rw [b64_roundtrip nonceBytes hnb]
    simp only
    rw [if_neg (by simp [hnlen]), b64_roundtrip ct (hcb ct hae)]
    simp only
    rw [haead _ _ hae]
    simp only
    rw [utf8_roundtrip m]

/-- Witness for C1 at a concrete key, nonce and message. -/
theorem C1_seal_open_roundtrip_witness :
    CryptoSystem.decrypt toyCipher (CryptoSystem.fromKey (List.replicate 32 0))
      ⟨"YWJjAA==", "AAAAAAAAAAAAAAAA"⟩ = .ok "abc" :=
  C1_seal_open_roundtrip toyCipher (CryptoSystem.fromKey (List.replicate 32 0))
    (List.replicate 12 0) "abc" ⟨"YWJjAA==", "AAAAAAAAAAAAAAAA"⟩
    (by decide) (by decide) (by decide)
    (fun p c h => toyCipher_roundtrip _ _ p c h)
    (fun c h => toyCipher_bytes _ _ _ c h (utf8Bytes_lt_256 "abc"))
    (by decide)

/-- C2 as stated is false: the line `" "` fails to parse as a `Command`, yet
the device loop emits no response at all for it (the trimmed-empty early
return), rather than an `Invalid JSON format` error response. -/
theorem C2_counterexample :
    decodeCommand " " = none ∧ decodeCommand (rustTrim " ") = none ∧ processLine " " = [] := by
  refine ⟨by decide, by decide, by decide⟩

/-- C2 (amended): a line whose trimmed text parses as a `Command` with action
`ping` yields exactly the pong response correlated to `ping`; an action
outside hello/ping/status yields exactly the
`error`/`Unknown command` response echoing that action; a line that is
nonempty after trimming and fails to parse yields exactly the
`error`/`Invalid JSON format` response with no correlation; a line that is
empty after trimming yields no response. -/
theorem C2_device_dispatch (line : String) (c : Command) :
    (decodeCommand (rustTrim line) = some c → c.action = "ping" →
      processLine line = [⟨"pong", "🏓 Pong from ESP32!", some "ping"⟩]) ∧
    (decodeCommand (rustTrim line) = some c →
      c.action ≠ "hello" → c.action ≠ "ping" → c.action ≠ "status" →
      processLine line = [⟨"error", "Unknown command", some c.action⟩]) ∧
    (rustTrim line ≠ "" → decodeCommand (rustTrim line) = none →
      processLine line = [⟨"error", "Invalid JSON format", none⟩]) ∧
    (rustTrim line = "" → processLine line = []) := by
  have hne : decodeCommand (rustTrim line) = some c → rustTrim line ≠ "" := by
    have hnone : decodeCommand "" = none := by decide
    intro hdec h0
    rw [h0, hnone] at hdec
    exact Option.noConfusion hdec
  refine ⟨?_, ?_, ?_, ?_⟩
  · intro hdec hping
    rw [processLine, if_neg (hne hdec), hdec]
    simp only
    rw [processCommand, if_neg (by rw [hping]; decide), if_pos hping]
    rfl
  · intro hdec h1 h2 h3
    rw [processLine, if_neg (hne hdec), hdec]
    simp only
    rw [processCommand, if_neg h1, if_neg h2, if_neg h3]
    rfl
  · intro h0 hdec
    rw [processLine, if_neg h0, hdec]
    rfl
  · intro h0
    rw [processLine, if_pos h0]

/-- Witness for C2 (amended) at a concrete ping line. -/
theorem C2_device_dispatch_witness :
    processLine "\x7b\"action\":\"ping\",\"data\":null\x7d" =
      [⟨"pong", "🏓 Pong from ESP32!", some "ping"⟩] :=
  (C2_device_dispatch "\x7b\"action\":\"ping\",\"data\":null\x7d" ⟨"ping", none⟩).1
    (by decide) rfl

/-- C3 as stated is false: for an envelope whose ciphertext is not valid
base64 but whose nonce is valid base64 decoding to one byte, `decrypt`
panics (in `Nonce::from_slice`) instead of failing with
`Base64DecodeFailed`. -/
theorem C3_counterexample :
    b64decode "!!!!" = none ∧
    CryptoSystem.decrypt toyCipher (CryptoSystem.fromKey (List.replicate 32 0))
      ⟨"!!!!", "AA=="⟩ = .crash := by
  refine ⟨by decide, by decide⟩

/-- C3 (amended): for envelopes whose nonce field either fails base64 or
decodes to exactly 12 bytes, `decrypt` fails with `Base64DecodeFailed`
exactly when the nonce or ciphertext is not valid base64, with
`DecryptionFailed` exactly when both decode but the AEAD rejects the
ciphertext, with `Utf8DecodeFailed` exactly when decryption succeeds but the
plaintext is not valid UTF-8, and these are its only failure modes. -/
theorem C3_decrypt_error_classification (A : AeadCipher) (cs : CryptoSystem)
    (env : EncryptedMessage) (hkey : cs.key.length = 32)
    (hnonce : b64decode env.nonce = none ∨
      ∃ nb, b64decode env.nonce = some nb ∧ nb.length = 12) :
    (CryptoSystem.decrypt A cs env = .err .Base64DecodeFailed ↔
      b64decode env.nonce = none ∨ b64decode env.ciphertext = none) ∧
    (CryptoSystem.decrypt A cs env = .err .DecryptionFailed ↔
      ∃ nb cb, b64decode env.nonce = some nb ∧ b64decode env.ciphertext = some cb ∧
        A.dec cs.key nb cb = none) ∧
    (CryptoSystem.decrypt A cs env = .err .Utf8DecodeFailed ↔
      ∃ nb cb pt, b64decode env.nonce = some nb ∧ b64decode env.ciphertext = some cb ∧
        A.dec cs.key nb cb = some pt ∧ utf8Decode pt = none) ∧
    ((∃ s, CryptoSystem.decrypt A cs env = .ok s) ∨
      CryptoSystem.decrypt A cs env = .err .Base64DecodeFailed ∨
      CryptoSystem.decrypt A cs env = .err .DecryptionFailed ∨
      CryptoSystem.decrypt A cs env = .err .Utf8DecodeFailed) := by
  rw [CryptoSystem.decrypt, if_neg (by simp [hkey])]
  rcases hnonce with hn | ⟨nb, hn, hlen⟩
  · rw [hn]
    simp [hn]
  · rw [hn]
    simp only
    rw [if_neg (by simp [hlen])]
    cases hc : b64decode env.ciphertext with
    | none => simp [hn, hc]
    | some cb =>
      cases hd : A.dec cs.key nb cb with
      | none => simp [hn, hc, hd]
      | some pt =>
        cases hu : utf8Decode pt with
        | none => simp [hn, hc, hd, hu]
        | some str => simp [hn, hc, hd, hu]

/-- Witness for C3 (amended) at a concrete well-formed envelope. -/
theorem C3_decrypt_error_classification_witness :
    (∃ s, CryptoSystem.decrypt toyCipher (CryptoSystem.fromKey (List.replicate 32 0))
        ⟨"AA==", "AAAAAAAAAAAAAAAA"⟩ = .ok s) ∨
      CryptoSystem.decrypt toyCipher (CryptoSystem.fromKey (List.replicate 32 0))
        ⟨"AA==", "AAAAAAAAAAAAAAAA"⟩ = .err .Base64DecodeFailed ∨
      CryptoSystem.decrypt toyCipher (CryptoSystem.fromKey (List.replicate 32 0))
        ⟨"AA==", "AAAAAAAAAAAAAAAA"⟩ = .err .DecryptionFailed ∨
      CryptoSystem.decrypt toyCipher (CryptoSystem.fromKey (List.replicate 32 0))
        ⟨"AA==", "AAAAAAAAAAAAAAAA"⟩ = .err .Utf8DecodeFailed :=
  (C3_decrypt_error_classification toyCipher (CryptoSystem.fromKey (List.replicate 32 0))
    ⟨"AA==", "AAAAAAAAAAAAAAAA"⟩ (by decide)
    (Or.inr ⟨List.replicate 12 0, by decide, by decide⟩)).2.2.2

/-- C4 as stated is false: the byte stream `C3 A9 0A` (the UTF-8 encoding of
`"é\n"`) fed one byte per call yields no line at all — the one-byte chunks
each fail the `std::str::from_utf8` check and are dropped — while the same
bytes fed as one chunk yield the line `"é"`; bytes are lost and the output
depends on the chunk boundaries. -/
theorem C4_counterexample :
    feedChunks [] [[0xC3], [0xA9], [0x0A]] = ([], []) ∧
    feedChunks [] [[0xC3, 0xA9, 0x0A]] = ([], ["é"]) ∧
    [[0xC3], [0xA9], [0x0A]].flatten = [0xC3, 0xA9, 0x0A] := by
  refine ⟨by decide, by decide, by decide⟩

/-- C4 (amended): for chunkings into pieces that are each valid UTF-8 — in
particular any chunking of a pure-ASCII stream, down to one byte per call —
the accumulator loses and duplicates nothing and emits a line sequence
independent of the chunk boundaries; feeding the bytes of `"abc\ndef\n"`
one byte per call yields exactly `"abc"` then `"def"`. -/
theorem C4_line_accumulator (chunks1 chunks2 : List (List Nat)) :
    (chunks1.flatten = chunks2.flatten →
      (∀ ch ∈ chunks1, ∃ s, utf8Decode ch = some s) →
      (∀ ch ∈ chunks2, ∃ s, utf8Decode ch = some s) →
      feedChunks [] chunks1 = feedChunks [] chunks2) ∧
    feedChunks [] ((utf8Bytes "abc\ndef\n").map (fun b => [b])) = ([], ["abc", "def"]) := by
  constructor
  · intro hflat h1 h2
    rw [feedChunks_flatten chunks1 [] (by simp) h1,
      feedChunks_flatten chunks2 [] (by simp) h2, hflat]
  · decide

/-- Witness for C4 (amended): a two-chunk split against the one-shot feed. -/
theorem C4_line_accumulator_witness :
    feedChunks [] [[97, 98, 99, 10], [100, 101, 102, 10]] =
      feedChunks [] [[97, 98, 99, 10, 100, 101, 102, 10]] :=
  (C4_line_accumulator [[97, 98, 99, 10], [100, 101, 102, 10]]
      [[97, 98, 99, 10, 100, 101, 102, 10]]).1
    (by decide)
    (by
      intro ch hch
      simp only [List.mem_cons, List.not_mem_nil, or_false] at hch
      rcases hch with rfl | rfl
      · exact ⟨"abc\n", by decide⟩
      · exact ⟨"def\n", by decide⟩)
    (by
      intro ch hch
      simp only [List.mem_cons, List.not_mem_nil, or_false] at hch
      rcases hch with rfl
      exact ⟨"abc\ndef\n", by decide⟩)

/-- C5: starting from the initial delay of one time-unit, `N` consecutive
failed opens sleep `min(1,5), min(2,5), …, min(N,5)` — so the `N`-th retry
is delayed `min(N, 5)` — and an attempt that succeeds resets the delay, the
sleep after that connection ends being one time-unit again. -/
theorem C5_reconnect_backoff :
    (∀ N : Nat, sleptSeq 1 (List.replicate N false) =
      (List.range N).map (fun i => min (1 + i) 5)) ∧
    (∀ N : Nat, 0 < N →
      (sleptSeq 1 (List.replicate N false)).get? (N - 1) = some (min N 5)) ∧
    (∀ (d : Nat) (outs : List Bool), sleptSeq d (true :: outs) = 1 :: sleptSeq 2 outs) := by
  have hbase : ∀ N : Nat, sleptSeq 1 (List.replicate N false) =
      (List.range N).map (fun i => min (1 + i) 5) := by
    intro N
    have h := sleptSeq_replicate_false N 1 le_rfl
    simpa using h
  refine ⟨hbase, ?_, ?_⟩
  · intro N hN
    rw [hbase N, List.get?_map]
    rw [List.get?_range (by omega)]
    simp only [Option.map_some', Option.some.injEq]
    omega
  · intro d outs
    rw [sleptSeq]
    norm_num

/-- Witness for C5 at seven consecutive failures. -/
theorem C5_reconnect_backoff_witness :
    (sleptSeq 1 (List.replicate 7 false)).get? 6 = some 5 := by
  have h := C5_reconnect_backoff.2.1 7 (by norm_num)
  simpa using h

/-- C6: with no connection handle published in the shared slot,
`send_command` returns the not-connected error, leaves the slot unchanged
(still empty), and writes to no port. -/
theorem C6_send_not_connected (action : String) (data : Option String) :
    sendCommand none action data = (none, .error notConnectedMsg) := rfl

/-- C7 as stated is false: a raw line is cached verbatim with no origin
marker, so the cached value cannot indicate the origin — the raw line
`"✅ hi"` and the plain response `\x7b"status":"ok","message":"hi"\x7d` are
classified differently but cache the identical string `"✅ hi"`. -/
theorem C7_counterexample :
    handleLine toyCipher "✅ hi" = some ([.rawMessage "✅ hi"], "✅ hi") ∧
    handleLine toyCipher "\x7b\"status\":\"ok\",\"message\":\"hi\"\x7d" =
      some ([.responseReceived ⟨"ok", "hi", none⟩], "✅ hi") := by
  refine ⟨by decide, by decide⟩

/-- C7 (amended): classification per emitted line tries a plain `Response`
first; only if that fails an `EncryptedMessage`, which is decrypted at once
and whose plaintext is itself tried as a `Response` (surfaced verbatim when
that parse fails); only if both fail is the line raw.  The cached message is
prefixed `✅ ` for plain responses and `🔓 ` for decrypted ones (`❌ ` for
decrypt errors), while raw lines are cached verbatim without a marker. -/
theorem C7_line_classification (A : AeadCipher) (line s : String) (r r2 : Response)
    (e : EncryptedMessage) (er : CryptoError) :
    (decodeResponse line = some r →
      handleLine A line = some ([.responseReceived r], "✅ " ++ r.message)) ∧
    (decodeResponse line = none → decodeEncrypted line = some e →
      CryptoSystem.decrypt A createDefaultCrypto e = .ok s → decodeResponse s = some r2 →
      handleLine A line =
        some ([.encryptedReceived e, .responseReceived r2], "🔓 " ++ r2.message)) ∧
    (decodeResponse line = none → decodeEncrypted line = some e →
      CryptoSystem.decrypt A createDefaultCrypto e = .ok s → decodeResponse s = none →
      handleLine A line = some ([.encryptedReceived e], "🔓 " ++ s)) ∧
    (decodeResponse line = none → decodeEncrypted line = some e →
      CryptoSystem.decrypt A createDefaultCrypto e = .err er →
      handleLine A line =
        some ([.encryptedReceived e], "❌ Decryption error: " ++ cryptoErrorMessage er)) ∧
    (decodeResponse line = none → decodeEncrypted line = none →
      handleLine A line = some ([.rawMessage line], line)) := by
  refine ⟨?_, ?_, ?_, ?_, ?_⟩
  · intro h1
    rw [handleLine, h1]
  · intro h1 h2 h3 h4
    rw [handleLine, h1]
    simp only
    rw [h2]
    simp only
    rw [h3]
    simp only
    rw [h4]
  · intro h1 h2 h3 h4
    rw [handleLine, h1]
    simp only
    rw [h2]
    simp only
    rw [h3]
    simp only
    rw [h4]
  · intro h1 h2 h3
    rw [handleLine, h1]
    simp only
    rw [h2]
    simp only
    rw [h3]
  · intro h1 h2
    rw [handleLine, h1]
    simp only
    rw [h2]

/-- Witness for C7 (amended) at a concrete raw line. -/
theorem C7_line_classification_witness :
    handleLine toyCipher "hello world" = some ([.rawMessage "hello world"], "hello world") :=
  (C7_line_classification toyCipher "hello world" "" ⟨"", "", none⟩ ⟨"", "", none⟩
    ⟨"", ""⟩ .DecryptionFailed).2.2.2.2 (by decide) (by decide)

/-- C8 as stated is false: `main` installs the crypto state with
`is_ready: true`, so in the start state — in which
`initialize_lightweight_crypto` has never been called — the sender does not
fail with the crypto-not-ready error: with no port published it fails with
the not-connected error instead. -/
theorem C8_counterexample :
    mainInitialCryptoState.is_ready = true ∧
    sendLightweightEncryptedCommand toyCipher (List.replicate 12 0) mainInitialCryptoState
      none "ping" none = some (none, .error notConnectedMsg) ∧
    notConnectedMsg ≠ notReadyMsg := by
  refine ⟨rfl, rfl, by decide⟩

theorem snd_of_some_pair {α β : Type} {a : α} {b : β} {a2 : α} {b2 : β}
    (h : (some (a, b) : Option (α × β)) = some (a2, b2)) : b = b2 :=
  congrArg Prod.snd (Option.some.inj h)

theorem failedSend_ne_notReady (t : String) :
    ("Failed to send encrypted command: " ++ t) ≠ notReadyMsg := by
  intro h
  have h2 := congrArg String.data h
  rw [String.data_append] at h2
  rw [show ("Failed to send encrypted command: " : String).data =
    'F' :: "ailed to send encrypted command: ".data from rfl] at h2
  rw [show (notReadyMsg : String).data =
    'L' :: "ightweight crypto not initialized. Please initialize first.".data from rfl] at h2
  rw [List.cons_append] at h2
  injection h2 with h3 _
  exact absurd h3 (by decide)

/-- C8 (amended): `send_lightweight_encrypted_command` fails with the
crypto-not-ready error exactly when the ready flag is unset (performing no
encryption and no write, the slot unchanged); `initialize_lightweight_crypto`
sets the flag, and `main` already installs the state with the flag set, so
the failure is unreachable from the start state. -/
theorem C8_crypto_ready_gate (A : AeadCipher) (nonceBytes : List Nat)
    (cst : SimpleCryptoState) (slot : Option SerialPort) (action : String)
    (data : Option String) :
    (sendLightweightEncryptedCommand A nonceBytes cst slot action data =
        some (slot, .error notReadyMsg) ↔ cst.is_ready = false) ∧
    (initializeLightweightCrypto cst).1.is_ready = true ∧
    mainInitialCryptoState.is_ready = true := by
  refine ⟨?_, rfl, rfl⟩
  by_cases hr : cst.is_ready = false
  · rw [sendLightweightEncryptedCommand, if_pos hr]
    simp [hr]
  · constructor
    · intro habs
      rw [sendLightweightEncryptedCommand, if_neg hr] at habs
      exfalso
      split at habs
      · rename_i e heq
        have h2 := snd_of_some_pair habs
        injection h2 with h3
        cases e <;> exact absurd h3 (by decide)
      · exact Option.noConfusion habs
      · rename_i env heq
        split at habs
        · rename_i port
          split at habs
          · rename_i p2 hw
            have h2 := snd_of_some_pair habs
            exact Except.noConfusion h2
          · rename_i hw
            have h2 := snd_of_some_pair habs
            injection h2 with h3
            exact failedSend_ne_notReady _ h3
        · have h2 := snd_of_some_pair habs
          injection h2 with h3
          exact absurd h3 (by decide)
    · intro h0
      exact absurd h0 hr

/-- Witness for C8 (amended) at an unready state. -/
theorem C8_crypto_ready_gate_witness :
    sendLightweightEncryptedCommand toyCipher (List.replicate 12 0)
      ⟨CryptoSystem.fromKey (List.replicate 32 0), false⟩ none "ping" none =
      some (none, .error notReadyMsg) :=
  (C8_crypto_ready_gate toyCipher (List.replicate 12 0)
    ⟨CryptoSystem.fromKey (List.replicate 32 0), false⟩ none "ping" none).1.mpr rfl

/-- C9: `decode(encode(·))` is the identity for `Command` and `Response`; a
text parsing to an object without the optional field decodes with `none`
there rather than erroring, and a text parsing to an object lacking a
required field fails to decode. -/
theorem C9_codec_roundtrip (c : Command) (r : Response) (t : String)
    (fields : List (String × Json)) (a st ms : String) :
    decodeCommand (encodeCommand c) = some c ∧
    decodeResponse (encodeResponse r) = some r ∧
    (parseJsonText t = some (.obj [("action", .str a)]) → decodeCommand t = some ⟨a, none⟩) ∧
    (parseJsonText t = some (.obj fields) → (∀ p ∈ fields, p.1 ≠ "action") →
      decodeCommand t = none) ∧
    (parseJsonText t = some (.obj [("status", .str st), ("message", .str ms)]) →
      decodeResponse t = some ⟨st, ms, none⟩) ∧
    (parseJsonText t = some (.obj fields) →
      ((∀ p ∈ fields, p.1 ≠ "status") ∨ (∀ p ∈ fields, p.1 ≠ "message")) →
      decodeResponse t = none) := by
  refine ⟨decodeCommand_encodeCommand c, decodeResponse_encodeResponse r, ?_, ?_, ?_, ?_⟩
  · intro h
    rw [decodeCommand, h, Option.some_bind]
    rfl
  · intro h hno
    rw [decodeCommand, h, Option.some_bind]
    rw [show commandFromJson (.obj fields) = commandFields fields none none from rfl]
    exact commandFields_no_action fields none hno
  · intro h
    rw [decodeResponse, h, Option.some_bind]
    rfl
  · intro h hno
    rw [decodeResponse, h, Option.some_bind]
    rw [show responseFromJson (.obj fields) = responseFields fields none none none from rfl]
    rcases hno with hno | hno
    · exact responseFields_no_status fields none none hno
    · exact responseFields_no_message fields none none hno

/-- Witness for C9 at concrete values and texts. -/
theorem C9_codec_roundtrip_witness :
    decodeCommand (encodeCommand ⟨"ping", some "x"⟩) = some ⟨"ping", some "x"⟩ ∧
    decodeCommand "\x7b\"action\":\"go\"\x7d" = some ⟨"go", none⟩ ∧
    decodeCommand "\x7b\"data\":\"x\"\x7d" = none := by
  refine ⟨(C9_codec_roundtrip ⟨"ping", some "x"⟩ ⟨"", "", none⟩ "" [] "" "" "").1, ?_, ?_⟩
  · exact (C9_codec_roundtrip ⟨"", none⟩ ⟨"", "", none⟩ "\x7b\"action\":\"go\"\x7d"
      [] "go" "" "").2.2.1 rfl
  · exact (C9_codec_roundtrip ⟨"", none⟩ ⟨"", "", none⟩ "\x7b\"data\":\"x\"\x7d"
      [("data", .str "x")] "" "" "").2.2.2.1 rfl
      (by
        intro p hp
        simp only [List.mem_singleton] at hp
        subst hp
        decide)

/-- C10: the claim is right and the code is wrong — `decrypt` is not total:
an envelope whose nonce is valid base64 but decodes to one byte (not 12)
makes `Nonce::from_slice` panic instead of returning a `CryptoError`;
evaluated here at the failing input. -/
theorem C10_decrypt_crash_on_short_nonce :
    CryptoSystem.decrypt toyCipher (CryptoSystem.fromKey (List.replicate 32 0))
      ⟨"", "AA=="⟩ = .crash := by decide

end ETC
